import Mathlib

/-!
Verification of the DAG execution engine of the hierarchical task
orchestration system: a shallow embedding of `schema.py`,
`dag/graph.py`, `backups/dag/state_machine.py` and
`backups/dag/executor.py`, followed by theorems about the embedded
operations.

Conventions of the embedding:
* Python dicts become association lists (`List (String × _)`), which
  preserve insertion order exactly as CPython dicts do; `dict[k]`
  lookups that may raise `KeyError` become `Except ExecError` values.
* In-place mutation of node objects becomes a functional update of the
  graph's node map.  The source always stores a node object under its
  own `id` as key, so an object mutation is modelled as an update of
  the map entry at that key.
* The external ReAct executor agent (`ExecutorAgent.execute_node`) is
  an oracle parameter `runner : TaskNode → String → StepResult`.
* Metadata fields never read by the verified operations
  (`exit_criteria`, `risk`) are not carried in `TaskNode`.
-/

/-- `NodeType` from `schema.py`: three-level task hierarchy. -/
inductive NodeType where
  | goal
  | subgoal
  | action
deriving DecidableEq

/-- `NodeStatus` from `schema.py`: node lifecycle states. -/
inductive NodeStatus where
  | pending
  | ready
  | running
  | completed
  | failed
  | skipped
  | rolledBack
deriving DecidableEq

/-- `EdgeType` from `schema.py`. -/
inductive EdgeType where
  | dependency
  | conditional
  | rollback
deriving DecidableEq

/-- `TaskNode` from `schema.py` (metadata fields not read by the
verified operations are omitted). -/
structure TaskNode where
  id : String
  node_type : NodeType
  description : String
  status : NodeStatus
  result : Option String
  parent_id : Option String
deriving DecidableEq

/-- `TaskEdge` from `schema.py`. -/
structure TaskEdge where
  source : String
  target : String
  edge_type : EdgeType
  condition : Option String
deriving DecidableEq

/-- `DAGState` from `schema.py`: centralized shared state. -/
structure DAGState where
  task : String
  context : String
  node_results : List (String × String)
deriving DecidableEq

/-- `TaskDAG` from `dag/graph.py` (checkpoints are not modelled; no
verified operation reads them). -/
structure TaskDAG where
  nodes : List (String × TaskNode)
  edges : List TaskEdge
  state : DAGState
deriving DecidableEq

/-- `StepResult` from `schema.py` (fields read by the executor). -/
structure StepResult where
  success : Bool
  output : String
deriving DecidableEq

/-- Errors the embedded operations can raise: Python `KeyError` on a
missing dict key, and `InvalidTransitionError` from the state machine. -/
inductive ExecError where
  | keyError (key : String)
  | invalidTransition (nodeId : String) (fromStatus toStatus : NodeStatus)
deriving DecidableEq

/-- Lookup in an association list (Python `dict.get` / `dict[k]`). -/
def assocFind {α : Type} (k : String) : List (String × α) → Option α
  | [] => none
  | (k', v) :: rest => if k' = k then some v else assocFind k rest

/-- Write to an association list (Python `dict[k] = v`): updates the
existing entry in place, appends a fresh key at the end. -/
def assocSet {α : Type} (k : String) (v : α) : List (String × α) → List (String × α)
  | [] => [(k, v)]
  | (k', v') :: rest => if k' = k then (k, v) :: rest else (k', v') :: assocSet k v rest

/-- Delete from an association list (Python `del dict[k]`). -/
def assocErase {α : Type} (k : String) : List (String × α) → List (String × α)
  | [] => []
  | (k', v') :: rest => if k' = k then rest else (k', v') :: assocErase k rest

/-! ## State machine (`backups/dag/state_machine.py`) -/

/-- `VALID_TRANSITIONS` from `state_machine.py`: the transition table,
the single source of truth for legal state changes. -/
def VALID_TRANSITIONS : NodeStatus → List NodeStatus
  | .pending => [.ready, .skipped]
  | .ready => [.running, .skipped]
  | .running => [.completed, .failed]
  | .failed => [.rolledBack, .skipped]
  | .completed => []
  | .skipped => []
  | .rolledBack => []

/-- `NodeStateMachine.can_transition`. -/
def canTransition (node : TaskNode) (newStatus : NodeStatus) : Bool :=
  newStatus ∈ VALID_TRANSITIONS node.status

/-- A fired observer callback `(node_id, old_status, new_status)`. -/
abbrev TransitionEvent := String × NodeStatus × NodeStatus

/-- `NodeStateMachine.transition`: validates against the table, applies
the change and fires the observer callback exactly once; raises
`InvalidTransitionError` on an illegal pair.  The returned event list
records the observer callbacks fired by this call. -/
def transition (node : TaskNode) (newStatus : NodeStatus) :
    Except ExecError (TaskNode × List TransitionEvent) :=
  if ¬ canTransition node newStatus then
    .error (.invalidTransition node.id node.status newStatus)
  else
    .ok ({ node with status := newStatus }, [(node.id, node.status, newStatus)])

/-- `transition` with the observer events dropped, for call sites that
only use the state change. -/
def smApply (node : TaskNode) (newStatus : NodeStatus) : Except ExecError TaskNode :=
  (transition node newStatus).map Prod.fst

/-! ## Graph queries (`dag/graph.py`) -/

/-- `TaskDAG.get_dependency_ids`: predecessors via DEPENDENCY edges. -/
def getDependencyIds (edges : List TaskEdge) (node_id : String) : List String :=
  (edges.filter (fun e => e.target = node_id ∧ e.edge_type = .dependency)).map (·.source)

/-- `TaskDAG.get_conditional_edges`: CONDITIONAL edges out of `source_id`. -/
def getConditionalEdges (edges : List TaskEdge) (source_id : String) : List TaskEdge :=
  edges.filter (fun e => e.source = source_id ∧ e.edge_type = .conditional)

/-- `TaskDAG.get_rollback_targets`: ROLLBACK edge targets out of `node_id`. -/
def getRollbackTargets (edges : List TaskEdge) (node_id : String) : List String :=
  (edges.filter (fun e => e.source = node_id ∧ e.edge_type = .rollback)).map (·.target)

/-- The direct DEPENDENCY children of `nid` (the `children` query inside
`TaskDAG.get_downstream`, also used to extend the BFS queue). -/
def depChildren (edges : List TaskEdge) (nid : String) : List String :=
  (edges.filter (fun e => e.source = nid ∧ e.edge_type = .dependency)).map (·.target)

/-- All DEPENDENCY edge targets of the graph.  Every id that ever enters
the BFS queue of `get_downstream` is in this list. -/
def depTargets (edges : List TaskEdge) : List String :=
  (edges.filter (fun e => e.edge_type = .dependency)).map (·.target)

/-- The BFS loop of `TaskDAG.get_downstream`.  The extra disjunct
`nid ∉ depTargets edges` in the skip test is vacuous at the call site —
the queue is seeded and extended with DEPENDENCY edge targets only — and
serves solely to bound the recursion. -/
def bfsDownstream (edges : List TaskEdge) (visited : List String) (queue : List String) :
    List String :=
  match queue with
  | [] => visited
  | nid :: rest =>
    if nid ∈ visited ∨ nid ∉ depTargets edges then
      bfsDownstream edges visited rest
    else
      bfsDownstream edges (visited ++ [nid]) (rest ++ depChildren edges nid)
termination_by (((depTargets edges).toFinset \ visited.toFinset).card, queue.length)
decreasing_by
  · apply Prod.Lex.right
    simp
  · apply Prod.Lex.left
    apply Finset.card_lt_card
    rw [List.toFinset_append]
    have hmem : nid ∈ (depTargets edges).toFinset \ visited.toFinset := by
      simp only [Finset.mem_sdiff, List.mem_toFinset]
      tauto
    refine Finset.ssubset_iff_of_subset ?_ |>.mpr ⟨nid, hmem, ?_⟩
    · intro x hx
      simp only [Finset.mem_sdiff, List.mem_toFinset, List.toFinset_append] at hx ⊢
      rcases hx with ⟨hx1, hx2⟩
      simp only [Finset.mem_union, List.mem_toFinset] at hx2
      exact ⟨hx1, fun hv => hx2 (Or.inl hv)⟩
    · simp

/-- `TaskDAG.get_downstream`: all node ids downstream of `node_id` via
BFS on DEPENDENCY edges, in first-visit order (the source returns
`list(visited)` of a Python set, whose order is unspecified). -/
def getDownstream (g : TaskDAG) (node_id : String) : List String :=
  bfsDownstream g.edges [] (depChildren g.edges node_id)

/-- The loop of `TaskDAG.mark_subtree_skipped`: for each downstream id,
look the node up (`self.nodes[nid]`, a `KeyError` when absent) and set
PENDING/READY nodes to SKIPPED. -/
def markSkipList (nodes : List (String × TaskNode)) :
    List String → Except ExecError (List (String × TaskNode))
  | [] => .ok nodes
  | nid :: rest =>
    match assocFind nid nodes with
    | none => .error (.keyError nid)
    | some node =>
      if node.status = .pending ∨ node.status = .ready then
        markSkipList (assocSet nid { node with status := .skipped } nodes) rest
      else
        markSkipList nodes rest

/-- `TaskDAG.mark_subtree_skipped`. -/
def markSubtreeSkipped (g : TaskDAG) (node_id : String) : Except ExecError TaskDAG := do
  let ns ← markSkipList g.nodes (getDownstream g node_id)
  .ok { g with nodes := ns }

/-- The dependency scan
`all(self.nodes[d].status == NodeStatus.COMPLETED for d in deps)` used by
`get_ready_nodes` and `refresh_ready_states`: short-circuits on the
first non-COMPLETED dependency, raises `KeyError` on the first missing
one it reaches. -/
def allDepsCompleted (nodes : List (String × TaskNode)) :
    List String → Except ExecError Bool
  | [] => .ok true
  | d :: rest =>
    match assocFind d nodes with
    | none => .error (.keyError d)
    | some nd =>
      if nd.status = .completed then allDepsCompleted nodes rest else .ok false

/-- The loop of `TaskDAG.get_ready_nodes` over `self.nodes.values()`. -/
def readyScan (g : TaskDAG) : List (String × TaskNode) → Except ExecError (List TaskNode)
  | [] => .ok []
  | (_, n) :: rest =>
    if n.status = .pending ∨ n.status = .ready then
      match allDepsCompleted g.nodes (getDependencyIds g.edges n.id) with
      | .error e => .error e
      | .ok true => do
        let l ← readyScan g rest
        .ok (n :: l)
      | .ok false => readyScan g rest
    else readyScan g rest

/-- `TaskDAG.get_ready_nodes`: nodes with status PENDING or READY whose
DEPENDENCY predecessors are all COMPLETED. -/
def getReadyNodes (g : TaskDAG) : Except ExecError (List TaskNode) :=
  readyScan g g.nodes

/-- The loop of `TaskDAG.refresh_ready_states`: iterates the node
entries, promoting each PENDING node whose dependencies are all
COMPLETED; the dependency scan reads the current (partially updated)
map. -/
def refreshScan (edges : List TaskEdge) :
    List (String × TaskNode) → List (String × TaskNode) →
    Except ExecError (List (String × TaskNode))
  | [], cur => .ok cur
  | (k, n) :: rest, cur =>
    if n.status = .pending then
      match allDepsCompleted cur (getDependencyIds edges n.id) with
      | .error e => .error e
      | .ok true => refreshScan edges rest (assocSet k { n with status := .ready } cur)
      | .ok false => refreshScan edges rest cur
    else refreshScan edges rest cur

/-- `TaskDAG.refresh_ready_states`. -/
def refreshReadyStates (g : TaskDAG) : Except ExecError TaskDAG := do
  let ns ← refreshScan g.edges g.nodes g.nodes
  .ok { g with nodes := ns }

/-- `TaskDAG.remove_pending_node`: removes a PENDING node together with
its incident edges and stored result; returns `false` leaving the graph
unchanged when the node is absent or not PENDING. -/
def removePendingNode (g : TaskDAG) (node_id : String) : Bool × TaskDAG :=
  match assocFind node_id g.nodes with
  | none => (false, g)
  | some node =>
    if node.status ≠ .pending then (false, g)
    else
      (true,
        { g with
          nodes := assocErase node_id g.nodes
          edges := g.edges.filter (fun e => e.source ≠ node_id ∧ e.target ≠ node_id)
          state := { g.state with
            node_results := assocErase node_id g.state.node_results } })

/-- `TaskDAG._validate_dag`: collects warnings about edge endpoints
missing from the node map; it never rejects the graph. -/
def validateDag (g : TaskDAG) : List String :=
  g.edges.foldr
    (fun e acc =>
      (if assocFind e.source g.nodes = none then
        ["Edge source " ++ e.source ++ " not found in nodes"] else []) ++
      (if assocFind e.target g.nodes = none then
        ["Edge target " ++ e.target ++ " not found in nodes"] else []) ++ acc)
    []

/-! ## Shared state helpers (`schema.py` / `DAGState`) -/

/-- `DAGState.merge_result`: write a node's output under its own key. -/
def mergeResult (st : DAGState) (node_id : String) (output : String) : DAGState :=
  { st with node_results := assocSet node_id output st.node_results }

/-- `DAGState.get_node_context`: collects the carried-forward context
and the stored results of the given dependency ids (the `node_id`
argument is unused by the source as well). -/
def getNodeContext (st : DAGState) (_node_id : String) (dependency_ids : List String) :
    String :=
  let parts :=
    (if st.context ≠ "" then [st.context] else []) ++
      dependency_ids.filterMap (fun dep =>
        match assocFind dep st.node_results with
        | some r => some ("[Result of " ++ dep ++ "]:\n" ++ r)
        | none => none)
  String.intercalate "\n\n" parts

/-! ## Executor (`backups/dag/executor.py`) -/

/-- Character-list version of Python `needle.startswith`. -/
def startsWithChars : List Char → List Char → Bool
  | [], _ => true
  | _ :: _, [] => false
  | a :: as, b :: bs => a == b && startsWithChars as bs

/-- Character-list version of the Python substring operator
`needle in haystack`. -/
def containsChars (needle : List Char) : List Char → Bool
  | [] => needle.isEmpty
  | b :: bs => startsWithChars needle (b :: bs) || containsChars needle bs

/-- Python `needle in haystack` on strings. -/
def pyInString (needle haystack : String) : Bool :=
  containsChars needle.toList haystack.toList

/-- Python `str.lower` — per-character ASCII case folding, the same
folding `String.toLower` performs. -/
def pyLower (s : String) : String := String.mk (s.data.map Char.toLower)

/-- `DAGExecutor._evaluate_condition`: a missing or empty condition
always fires; otherwise case-insensitive keyword match against the
source node's stored result (defaulting to the empty string). -/
def evaluateCondition (edge : TaskEdge) (g : TaskDAG) : Bool :=
  match edge.condition with
  | none => true
  | some c =>
    if c = "" then true
    else pyInString (pyLower c) (pyLower ((assocFind edge.source g.state.node_results).getD ""))

/-- The body of the inner loop of `DAGExecutor._process_conditions`:
process one CONDITIONAL edge of a COMPLETED source node. -/
def processCondEdge (g : TaskDAG) (edge : TaskEdge) : Except ExecError TaskDAG :=
  match assocFind edge.target g.nodes with
  | none => .ok g
  | some target =>
    if target.status ≠ .pending then .ok g
    else if evaluateCondition edge g then .ok g
    else
      let g' := { g with nodes := assocSet edge.target { target with status := .skipped } g.nodes }
      markSubtreeSkipped g' target.id

/-- The inner loop of `DAGExecutor._process_conditions` over the
conditional edges of one source node. -/
def processCondEdges : TaskDAG → List TaskEdge → Except ExecError TaskDAG
  | g, [] => .ok g
  | g, e :: rest => do
    let g' ← processCondEdge g e
    processCondEdges g' rest

/-- The outer loop of `DAGExecutor._process_conditions` over a snapshot
of the node ids, re-reading each node's current status. -/
def processConditionsScan : TaskDAG → List String → Except ExecError TaskDAG
  | g, [] => .ok g
  | g, nid :: rest =>
    match assocFind nid g.nodes with
    | none => processConditionsScan g rest
    | some node =>
      if node.status ≠ .completed then processConditionsScan g rest
      else
        match processCondEdges g (getConditionalEdges g.edges node.id) with
        | .error e => .error e
        | .ok g' => processConditionsScan g' rest

/-- `DAGExecutor._process_conditions`. -/
def processConditions (g : TaskDAG) : Except ExecError TaskDAG :=
  processConditionsScan g (g.nodes.map Prod.fst)

/-- `DAGExecutor._run_node`: build the node's context from its
dependencies' results, drive it PENDING→READY→RUNNING, then invoke the
external executor agent (the `runner` oracle). -/
def runNode (runner : TaskNode → String → StepResult) (g : TaskDAG) (node : TaskNode) :
    Except ExecError (TaskDAG × StepResult) := do
  let context := getNodeContext g.state node.id (getDependencyIds g.edges node.id)
  let n1 ← (if node.status = .pending then smApply node .ready else Except.ok node)
  let n2 ← smApply n1 .running
  let g' := { g with nodes := assocSet node.id n2 g.nodes }
  .ok (g', runner n2 context)

/-- The rollback loop of `DAGExecutor._handle_failure`: run each
PENDING rollback target through the single-node execution path, merge
its result, and drive it to COMPLETED or FAILED. -/
def rollbackFold (runner : TaskNode → String → StepResult) :
    TaskDAG → List String → Except ExecError TaskDAG
  | g, [] => .ok g
  | g, rb_id :: rest =>
    match assocFind rb_id g.nodes with
    | none => rollbackFold runner g rest
    | some rb =>
      if rb.status = .pending then
        match runNode runner g rb with
        | .error e => .error e
        | .ok (g1, res) =>
          let g2 := { g1 with state := mergeResult g1.state rb_id res.output }
          match assocFind rb_id g2.nodes with
          | none => rollbackFold runner g2 rest
          | some rbNow =>
            match smApply rbNow (if res.success then .completed else .failed) with
            | .error e => .error e
            | .ok rb2 =>
              rollbackFold runner { g2 with nodes := assocSet rb_id rb2 g2.nodes } rest
      else rollbackFold runner g rest

/-- `DAGExecutor._handle_failure`: execute rollback targets when
ROLLBACK edges exist and mark the node ROLLED_BACK, otherwise mark it
SKIPPED; in both cases cascade-skip the downstream subtree afterwards.
The source receives the failed node object; the embedding receives its
id and reads the current node from the map. -/
def handleFailure (runner : TaskNode → String → StepResult) (g : TaskDAG)
    (node_id : String) : Except ExecError TaskDAG := do
  let targets := getRollbackTargets g.edges node_id
  let g2 ← (if targets.isEmpty then
      (match assocFind node_id g.nodes with
      | none => Except.ok g
      | some cur => do
        let cur' ← smApply cur .skipped
        Except.ok { g with nodes := assocSet node_id cur' g.nodes })
    else (do
      let g1 ← rollbackFold runner g targets
      match assocFind node_id g1.nodes with
      | none => Except.ok g1
      | some cur => do
        let cur' ← smApply cur .rolledBack
        Except.ok { g1 with nodes := assocSet node_id cur' g1.nodes }))
  markSubtreeSkipped g2 node_id

/-- The terminal-status test of `graph.py` / `executor.py`
(`{COMPLETED, SKIPPED, ROLLED_BACK}`). -/
def isTerminal (s : NodeStatus) : Bool :=
  s = .completed ∨ s = .skipped ∨ s = .rolledBack

/-- The body of the loop of `DAGExecutor._complete_structural_nodes`
for one node id. -/
def completeStructStep (g : TaskDAG) (nid : String) : Except ExecError TaskDAG :=
  match assocFind nid g.nodes with
  | none => .ok g
  | some node =>
    if node.node_type = .action then .ok g
    else if isTerminal node.status then .ok g
    else
      let children := (g.nodes.map Prod.snd).filter (fun c => c.parent_id = some node.id)
      if children.isEmpty then .ok g
      else if children.all (fun c => isTerminal c.status) then
        if children.any (fun c => c.status = .completed) then do
          let n1 ← (if node.status = .pending then smApply node .ready else Except.ok node)
          let n2 ← (if n1.status = .ready then smApply n1 .running else Except.ok n1)
          let n3 ← (if n2.status = .running then smApply n2 .completed else Except.ok n2)
          .ok { g with nodes := assocSet nid n3 g.nodes }
        else
          if node.status = .pending ∨ node.status = .ready then
            .ok { g with nodes := assocSet nid { node with status := .skipped } g.nodes }
          else .ok g
      else .ok g

/-- The loop of `DAGExecutor._complete_structural_nodes` over the node
ids, threading the partially updated graph. -/
def completeStructuralScan : TaskDAG → List String → Except ExecError TaskDAG
  | g, [] => .ok g
  | g, nid :: rest =>
    match completeStructStep g nid with
    | .error e => .error e
    | .ok g' => completeStructuralScan g' rest

/-- `DAGExecutor._complete_structural_nodes`. -/
def completeStructuralNodes (g : TaskDAG) : Except ExecError TaskDAG :=
  completeStructuralScan g (g.nodes.map Prod.fst)

/-- The accumulation loop of `DAGExecutor._compile_output`: the stored
`result` of every COMPLETED ACTION node, Python truthiness dropping
`None` and the empty string. -/
def compileParts : List (String × TaskNode) → List String
  | [] => []
  | (_, n) :: rest =>
    if n.node_type = .action ∧ n.status = .completed then
      match n.result with
      | some r => if r ≠ "" then r :: compileParts rest else compileParts rest
      | none => compileParts rest
    else compileParts rest

/-- `DAGExecutor._compile_output`. -/
def compileOutput (g : TaskDAG) : String :=
  let parts := compileParts g.nodes
  if parts.isEmpty then "No action nodes completed successfully."
  else String.intercalate "\n\n" parts

/-! ## Spec-side definitions

Definitions in this section follow the wording of the specification (or
of a claim derived from it), for comparison against the embedded source
functions above. -/

/-- The lifecycle table of §3 of the specification, read literally:
`Pending→Ready`, `Ready→Running`, `Running→Completed|Failed`,
`Failed→RolledBack|Skipped`, and any non-terminal state `→ Skipped`. -/
def specSection3Allows (cur new : NodeStatus) : Prop :=
  (cur = .pending ∧ new = .ready) ∨
  (cur = .ready ∧ new = .running) ∨
  (cur = .running ∧ (new = .completed ∨ new = .failed)) ∨
  (cur = .failed ∧ (new = .rolledBack ∨ new = .skipped)) ∨
  (isTerminal cur = false ∧ new = .skipped)

/-- The transition table the code actually enforces, written out:
§3's table minus `Running→Skipped` (Skipped is reachable only from
Pending, Ready and Failed). -/
def amendedAllows (cur new : NodeStatus) : Prop :=
  (cur = .pending ∧ (new = .ready ∨ new = .skipped)) ∨
  (cur = .ready ∧ (new = .running ∨ new = .skipped)) ∨
  (cur = .running ∧ (new = .completed ∨ new = .failed)) ∨
  (cur = .failed ∧ (new = .rolledBack ∨ new = .skipped))

/-- The output-compilation rule as the claim states it: the stored
result of every COMPLETED ACTION node, in node iteration order, with
the sentinel exactly when no ACTION node completed. -/
def specCompileOutput (g : TaskDAG) : String :=
  let parts := (g.nodes.map Prod.snd).filterMap (fun n =>
    if n.node_type = .action ∧ n.status = .completed then some (n.result.getD "")
    else none)
  if parts.isEmpty then "No action nodes completed successfully."
  else String.intercalate "\n\n" parts

/-- The output-compilation rule as amended: only non-`None`, non-empty
results of COMPLETED ACTION nodes count, with the sentinel exactly when
no such result exists. -/
def amendedCompileOutput (g : TaskDAG) : String :=
  let parts := (g.nodes.map Prod.snd).filterMap (fun n =>
    if n.node_type = .action ∧ n.status = .completed then
      match n.result with
      | some r => if r = "" then none else some r
      | none => none
    else none)
  if parts.isEmpty then "No action nodes completed successfully."
  else String.intercalate "\n\n" parts

instance exceptDecEq {ε α : Type} [DecidableEq ε] [DecidableEq α] :
    DecidableEq (Except ε α) := fun x y =>
  match x, y with
  | .error a, .error b =>
    if h : a = b then isTrue (by rw [h])
    else isFalse fun hh => h (Except.error.inj hh)
  | .error _, .ok _ => isFalse fun hh => Except.noConfusion hh
  | .ok _, .error _ => isFalse fun hh => Except.noConfusion hh
  | .ok a, .ok b =>
    if h : a = b then isTrue (by rw [h])
    else isFalse fun hh => h (Except.ok.inj hh)

instance specSection3AllowsDec (cur new : NodeStatus) :
    Decidable (specSection3Allows cur new) := by
  unfold specSection3Allows; exact inferInstance

instance amendedAllowsDec (cur new : NodeStatus) :
    Decidable (amendedAllows cur new) := by
  unfold amendedAllows; exact inferInstance

/-! ## Concrete instances used by witnesses and counterexamples -/

/-- A running ACTION node, for exercising the state machine. -/
def nodeRunW : TaskNode :=
  { id := "a", node_type := .action, description := "run step",
    status := .running, result := none, parent_id := none }

/-- A pending ACTION node, for exercising the state machine. -/
def nodePendW : TaskNode :=
  { id := "w", node_type := .action, description := "pending step",
    status := .pending, result := none, parent_id := none }

/-- C2 counterexample graph: a FAILED node `n` whose only downstream
dependent `c` is itself FAILED (non-terminal, but not Pending/Ready). -/
def gC2 : TaskDAG :=
  { nodes := [("n", { id := "n", node_type := .action, description := "root",
                      status := .failed, result := none, parent_id := none }),
              ("c", { id := "c", node_type := .action, description := "dependent",
                      status := .failed, result := none, parent_id := none })],
    edges := [{ source := "n", target := "c", edge_type := .dependency, condition := none }],
    state := { task := "t", context := "", node_results := [] } }

/-- C2 witness graph: a FAILED node `n` with a PENDING dependent `p`
and a COMPLETED dependent `q`. -/
def gC2w : TaskDAG :=
  { nodes := [("n", { id := "n", node_type := .action, description := "root",
                      status := .failed, result := none, parent_id := none }),
              ("p", { id := "p", node_type := .action, description := "dep p",
                      status := .pending, result := none, parent_id := none }),
              ("q", { id := "q", node_type := .action, description := "dep q",
                      status := .completed, result := some "done", parent_id := none })],
    edges := [{ source := "n", target := "p", edge_type := .dependency, condition := none },
              { source := "n", target := "q", edge_type := .dependency, condition := none }],
    state := { task := "t", context := "", node_results := [("q", "done")] } }

/-- C5 witness graph: `a` COMPLETED, `b` PENDING depending on `a`. -/
def gC5w : TaskDAG :=
  { nodes := [("a", { id := "a", node_type := .action, description := "first",
                      status := .completed, result := some "ok", parent_id := none }),
              ("b", { id := "b", node_type := .action, description := "second",
                      status := .pending, result := none, parent_id := none })],
    edges := [{ source := "a", target := "b", edge_type := .dependency, condition := none }],
    state := { task := "t", context := "", node_results := [("a", "ok")] } }

/-- The `b` node of `gC5w`. -/
def nodeBC5 : TaskNode :=
  { id := "b", node_type := .action, description := "second",
    status := .pending, result := none, parent_id := none }

/-- C7 witness graph: a PENDING node `x` with incident edges and a
stray stored result, plus a COMPLETED neighbour `y`. -/
def gC7w : TaskDAG :=
  { nodes := [("x", { id := "x", node_type := .action, description := "removable",
                      status := .pending, result := none, parent_id := none }),
              ("y", { id := "y", node_type := .action, description := "kept",
                      status := .completed, result := some "out", parent_id := none })],
    edges := [{ source := "y", target := "x", edge_type := .dependency, condition := none },
              { source := "x", target := "y", edge_type := .rollback, condition := none },
              { source := "y", target := "y", edge_type := .conditional, condition := some "k" }],
    state := { task := "t", context := "", node_results := [("x", "stale"), ("y", "out")] } }

/-- The `x` node of `gC7w`. -/
def nodeXC7 : TaskNode :=
  { id := "x", node_type := .action, description := "removable",
    status := .pending, result := none, parent_id := none }

/-- C9 witness graph: a PENDING node `t` whose only Dependency edge has
the absent source id `ghost` — a graph the constructor accepts with a
warning. -/
def gC9w : TaskDAG :=
  { nodes := [("t", { id := "t", node_type := .action, description := "blocked",
                      status := .pending, result := none, parent_id := none })],
    edges := [{ source := "ghost", target := "t", edge_type := .dependency, condition := none }],
    state := { task := "t", context := "", node_results := [] } }

/-- C6 counterexample graph: a single COMPLETED ACTION node whose
stored result is the empty string. -/
def gC6 : TaskDAG :=
  { nodes := [("a1", { id := "a1", node_type := .action, description := "quiet step",
                       status := .completed, result := some "", parent_id := none })],
    edges := [],
    state := { task := "t", context := "", node_results := [("a1", "")] } }

/-- The `t` node of `gC9w`. -/
def nodeTC9 : TaskNode :=
  { id := "t", node_type := .action, description := "blocked",
    status := .pending, result := none, parent_id := none }

/-- Relation between node maps: every entry is preserved, with its
status either unchanged or moved Pending/Ready → Skipped (the shape of
the engine's direct skip assignments). -/
def skipChange (m m' : List (String × TaskNode)) : Prop :=
  (∀ k, assocFind k m = none → assocFind k m' = none) ∧
  (∀ k nd, assocFind k m = some nd → ∃ nd', assocFind k m' = some nd' ∧
    (nd' = nd ∨ ((nd.status = .pending ∨ nd.status = .ready) ∧
      nd' = { nd with status := .skipped })))

/-- Relation between node maps: every entry is preserved and its status
moves along a (possibly empty) chain of transitions of the
`VALID_TRANSITIONS` table. -/
def chainChange (m m' : List (String × TaskNode)) : Prop :=
  (∀ k, assocFind k m = none → assocFind k m' = none) ∧
  (∀ k nd, assocFind k m = some nd → ∃ nd', assocFind k m' = some nd' ∧
    Relation.ReflTransGen (fun a b => b ∈ VALID_TRANSITIONS a) nd.status nd'.status)

/-- C10 witness graph: a COMPLETED source with a rejected conditional
branch to a PENDING target. -/
def gC10w : TaskDAG :=
  { nodes := [("s", { id := "s", node_type := .action, description := "source",
                      status := .completed, result := some "no dive", parent_id := none }),
              ("u", { id := "u", node_type := .action, description := "branch",
                      status := .pending, result := none, parent_id := none })],
    edges := [{ source := "s", target := "u", edge_type := .dependency, condition := none },
              { source := "s", target := "u", edge_type := .conditional,
                condition := some "deep dive" }],
    state := { task := "t", context := "", node_results := [("s", "no dive")] } }

/-- `gC10w` after `_process_conditions`: the rejected conditional
target `u` is SKIPPED. -/
def gC10wPrime : TaskDAG :=
  { nodes := [("s", { id := "s", node_type := .action, description := "source",
                      status := .completed, result := some "no dive", parent_id := none }),
              ("u", { id := "u", node_type := .action, description := "branch",
                      status := .skipped, result := none, parent_id := none })],
    edges := [{ source := "s", target := "u", edge_type := .dependency, condition := none },
              { source := "s", target := "u", edge_type := .conditional,
                condition := some "deep dive" }],
    state := { task := "t", context := "", node_results := [("s", "no dive")] } }

/-- C4 graph: COMPLETED source `s` (stored result from §8 of the
spec), PENDING conditional target `u`, and a FAILED dependent `v`
downstream of `u`. -/
def gC4c : TaskDAG :=
  { nodes := [("s", { id := "s", node_type := .action, description := "probe",
                      status := .completed, result := some "no further action needed",
                      parent_id := none }),
              ("u", { id := "u", node_type := .action, description := "deep dive",
                      status := .pending, result := none, parent_id := none }),
              ("v", { id := "v", node_type := .action, description := "writeup",
                      status := .failed, result := none, parent_id := none })],
    edges := [{ source := "s", target := "u", edge_type := .dependency, condition := none },
              { source := "s", target := "u", edge_type := .conditional,
                condition := some "needs deep dive" },
              { source := "u", target := "v", edge_type := .dependency, condition := none }],
    state := { task := "t", context := "",
               node_results := [("s", "no further action needed")] } }

/-- The conditional edge of `gC4c`. -/
def edgeC4 : TaskEdge :=
  { source := "s", target := "u", edge_type := .conditional,
    condition := some "needs deep dive" }

/-- `gC4c` after the edge is processed: `u` SKIPPED, `v` untouched. -/
def gC4cPrime : TaskDAG :=
  { nodes := [("s", { id := "s", node_type := .action, description := "probe",
                      status := .completed, result := some "no further action needed",
                      parent_id := none }),
              ("u", { id := "u", node_type := .action, description := "deep dive",
                      status := .skipped, result := none, parent_id := none }),
              ("v", { id := "v", node_type := .action, description := "writeup",
                      status := .failed, result := none, parent_id := none })],
    edges := [{ source := "s", target := "u", edge_type := .dependency, condition := none },
              { source := "s", target := "u", edge_type := .conditional,
                condition := some "needs deep dive" },
              { source := "u", target := "v", edge_type := .dependency, condition := none }],
    state := { task := "t", context := "",
               node_results := [("s", "no further action needed")] } }

/-- The `u` node of `gC4c`. -/
def nodeUC4 : TaskNode :=
  { id := "u", node_type := .action, description := "deep dive",
    status := .pending, result := none, parent_id := none }

/-- C8 counterexample graph: a RUNNING SubGoal `sg` whose only direct
child `c` ended SKIPPED. -/
def gC8 : TaskDAG :=
  { nodes := [("sg", { id := "sg", node_type := .subgoal, description := "group",
                       status := .running, result := none, parent_id := none }),
              ("c", { id := "c", node_type := .action, description := "leaf",
                      status := .skipped, result := none, parent_id := some "sg" })],
    edges := [],
    state := { task := "t", context := "", node_results := [] } }

/-- C8 witness graph: a PENDING SubGoal `sg` with a COMPLETED child
`c1` and a SKIPPED child `c2`. -/
def gC8w : TaskDAG :=
  { nodes := [("sg", { id := "sg", node_type := .subgoal, description := "group",
                       status := .pending, result := none, parent_id := none }),
              ("c1", { id := "c1", node_type := .action, description := "leaf 1",
                       status := .completed, result := some "r1", parent_id := some "sg" }),
              ("c2", { id := "c2", node_type := .action, description := "leaf 2",
                       status := .skipped, result := none, parent_id := some "sg" })],
    edges := [],
    state := { task := "t", context := "", node_results := [("c1", "r1")] } }

/-- The `sg` node of `gC8w`. -/
def nodeSGC8 : TaskNode :=
  { id := "sg", node_type := .subgoal, description := "group",
    status := .pending, result := none, parent_id := none }

/-- Well-formedness of a node map: every node object is stored under
its own `id` as key, exactly how the source constructs `self.nodes`. -/
def nodesWF (nodes : List (String × TaskNode)) : Prop :=
  ∀ p ∈ nodes, p.2.id = p.1

/-- C3 witness graph: a FAILED node `a` with a PENDING rollback target
`rb` and a PENDING downstream dependent `w`. -/
def gC3w : TaskDAG :=
  { nodes := [("a", { id := "a", node_type := .action, description := "risky step",
                      status := .failed, result := some "boom", parent_id := none }),
              ("rb", { id := "rb", node_type := .action, description := "cleanup",
                       status := .pending, result := none, parent_id := none }),
              ("w", { id := "w", node_type := .action, description := "writeup",
                      status := .pending, result := none, parent_id := none })],
    edges := [{ source := "a", target := "rb", edge_type := .rollback, condition := none },
              { source := "a", target := "w", edge_type := .dependency, condition := none }],
    state := { task := "t", context := "", node_results := [("a", "boom")] } }

/-- The failed node `a` of `gC3w`. -/
def nodeAC3 : TaskNode :=
  { id := "a", node_type := .action, description := "risky step",
    status := .failed, result := some "boom", parent_id := none }

/-- A runner oracle for the C3 witness: every execution succeeds with
output "cleaned". -/
def runnerC3 : TaskNode → String → StepResult :=
  fun _ _ => { success := true, output := "cleaned" }

/-- Relation between node maps: every entry is preserved, with its
status either unchanged or moved Pending → Ready (the shape of the
direct promotion assignment in `refresh_ready_states`). -/
def promoteChange (m m' : List (String × TaskNode)) : Prop :=
  (∀ k, assocFind k m = none → assocFind k m' = none) ∧
  (∀ k nd, assocFind k m = some nd → ∃ nd', assocFind k m' = some nd' ∧
    (nd' = nd ∨ (nd.status = .pending ∧ nd' = { nd with status := .ready })))

/-- C10 counterexample graph: a lone PENDING node with no dependencies,
which `refresh_ready_states` promotes by direct assignment. -/
def gC10c : TaskDAG :=
  { nodes := [("p", { id := "p", node_type := .action, description := "lone step",
                      status := .pending, result := none, parent_id := none })],
    edges := [],
    state := { task := "t", context := "", node_results := [] } }

/-- `gC10c` after `refresh_ready_states`: `p` has been promoted to
READY by the direct assignment at the end of the refresh loop. -/
def gC10cPrime : TaskDAG :=
  { nodes := [("p", { id := "p", node_type := .action, description := "lone step",
                      status := .ready, result := none, parent_id := none })],
    edges := [],
    state := { task := "t", context := "", node_results := [] } }

/-! ## Theorems -/

theorem assocFind_assocSet {α : Type} (k k' : String) (v : α) (m : List (String × α)) :
    assocFind k' (assocSet k v m) = if k = k' then some v else assocFind k' m := by
  induction m with
  | nil => by_cases h : k = k' <;> simp [assocSet, assocFind, h]
  | cons p rest ih =>
    obtain ⟨a, b⟩ := p
    by_cases hak : a = k
    · subst hak
      by_cases hkk : a = k'
      · subst hkk
        simp [assocSet, assocFind]
      · simp [assocSet, assocFind, hkk]
    · by_cases hak' : a = k'
      · subst hak'
        have : k ≠ a := fun h => hak h.symm
        simp [assocSet, assocFind, hak, this]
      · simp [assocSet, assocFind, hak, hak', ih]

theorem assocFind_isSome_assocSet {α : Type} (k k' : String) (v : α)
    (m : List (String × α)) (h : (assocFind k' m).isSome) :
    (assocFind k' (assocSet k v m)).isSome := by
  rw [assocFind_assocSet]
  by_cases hk : k = k' <;> simp [hk, h]

theorem mem_VALID_TRANSITIONS_iff (cur new : NodeStatus) :
    new ∈ VALID_TRANSITIONS cur ↔ amendedAllows cur new := by
  cases cur <;> cases new <;> simp [VALID_TRANSITIONS, amendedAllows]

theorem canTransition_iff (node : TaskNode) (newStatus : NodeStatus) :
    canTransition node newStatus = true ↔ amendedAllows node.status newStatus := by
  rw [canTransition, decide_eq_true_iff]
  exact mem_VALID_TRANSITIONS_iff node.status newStatus

/-- C1 counterexample: the lifecycle table of §3 — which lets any
non-terminal state move to Skipped — allows Running→Skipped, yet
`transition` raises a transition error on exactly that pair. -/
theorem C1_transition_counterexample :
    specSection3Allows .running .skipped ∧
    transition nodeRunW .skipped = .error (.invalidTransition "a" .running .skipped) := by
  constructor
  · simp [specSection3Allows, isTerminal]
  · decide

/-- C1 (amended): `transition` raises a transition error iff the
(current, requested) pair is outside the table the code enforces —
§3's table minus Running→Skipped — and every in-table transition
succeeds, applies the status change, and fires exactly one observer
callback. -/
theorem C1_transition_table (node : TaskNode) (newStatus : NodeStatus) :
    ((∃ e, transition node newStatus = .error e) ↔
      ¬ amendedAllows node.status newStatus) ∧
    (amendedAllows node.status newStatus →
      transition node newStatus =
        .ok ({ node with status := newStatus }, [(node.id, node.status, newStatus)])) := by
  by_cases hc : canTransition node newStatus = true
  · have hall : amendedAllows node.status newStatus := (canTransition_iff node newStatus).mp hc
    have hok : transition node newStatus =
        .ok ({ node with status := newStatus }, [(node.id, node.status, newStatus)]) := by
      simp [transition, hc]
    refine ⟨⟨?_, fun hn => (hn hall).elim⟩, fun _ => hok⟩
    rintro ⟨e, he⟩
    rw [hok] at he
    exact absurd he (by simp)
  · have hall : ¬ amendedAllows node.status newStatus :=
      fun h => hc ((canTransition_iff node newStatus).mpr h)
    have herr : transition node newStatus =
        .error (.invalidTransition node.id node.status newStatus) := by
      simp [transition, hc]
    exact ⟨⟨fun _ => hall, fun _ => ⟨_, herr⟩⟩, fun h => (hall h).elim⟩

/-- Witness for `C1_transition_table` at a concrete pending node and
the Pending→Ready transition. -/
theorem C1_transition_table_witness :
    amendedAllows nodePendW.status .ready ∧
    transition nodePendW .ready =
      .ok ({ nodePendW with status := .ready },
           [(nodePendW.id, nodePendW.status, .ready)]) :=
  ⟨by decide, (C1_transition_table nodePendW .ready).2 (by decide)⟩

theorem markSkipList_spec (l : List String) (nodes : List (String × TaskNode))
    (hpres : ∀ nid ∈ l, (assocFind nid nodes).isSome) :
    ∃ ns, markSkipList nodes l = .ok ns ∧
      (∀ k, assocFind k nodes = none → assocFind k ns = none) ∧
      (∀ k nd, assocFind k nodes = some nd →
        assocFind k ns =
          if k ∈ l ∧ (nd.status = .pending ∨ nd.status = .ready)
          then some { nd with status := .skipped } else some nd) := by
  induction l generalizing nodes with
  | nil =>
    exact ⟨nodes, rfl, fun _ h => h, fun k nd h => by simp [h]⟩
  | cons nid rest ih =>
    have hnid := hpres nid (by simp)
    obtain ⟨node, hfind⟩ : ∃ node, assocFind nid nodes = some node := by
      cases hh : assocFind nid nodes with
      | none => rw [hh] at hnid; simp at hnid
      | some x => exact ⟨x, rfl⟩
    by_cases hst : node.status = .pending ∨ node.status = .ready
    · have hpres' : ∀ x ∈ rest,
          (assocFind x (assocSet nid { node with status := .skipped } nodes)).isSome :=
        fun x hx => assocFind_isSome_assocSet _ _ _ _ (hpres x (by simp [hx]))
      obtain ⟨ns, hrun, hnone, hsome⟩ := ih _ hpres'
      refine ⟨ns, ?_, ?_, ?_⟩
      · simp [markSkipList, hfind, hst, hrun]
      · intro k hk
        have hne : nid ≠ k := fun h => by
          rw [h, hk] at hfind; cases hfind
        apply hnone
        rw [assocFind_assocSet]
        simp [hne, hk]
      · intro k nd hknd
        by_cases hkn : k = nid
        · subst hkn
          have hnd : nd = node := by
            rw [hfind] at hknd; exact (Option.some.inj hknd).symm
          subst hnd
          have hfin' : assocFind k (assocSet k { nd with status := .skipped } nodes) =
              some { nd with status := .skipped } := by
            rw [assocFind_assocSet]; simp
          rw [hsome k _ hfin']
          simp [hst]
        · have hfin' : assocFind k (assocSet nid { node with status := .skipped } nodes) =
              some nd := by
            rw [assocFind_assocSet]
            have : nid ≠ k := fun h => hkn h.symm
            simp [this, hknd]
          rw [hsome k nd hfin']
          simp [List.mem_cons, hkn]
    · obtain ⟨ns, hrun, hnone, hsome⟩ := ih nodes (fun x hx => hpres x (by simp [hx]))
      refine ⟨ns, ?_, hnone, ?_⟩
      · simp [markSkipList, hfind, hst, hrun]
      · intro k nd hknd
        rw [hsome k nd hknd]
        by_cases hkn : k = nid
        · subst hkn
          have hnd : nd = node := by
            rw [hfind] at hknd; exact (Option.some.inj hknd).symm
          subst hnd
          simp [hst]
        · simp [List.mem_cons, hkn]

theorem markSubtreeSkipped_spec (g : TaskDAG) (n : String)
    (hpres : ∀ d ∈ getDownstream g n, (assocFind d g.nodes).isSome) :
    ∃ g', markSubtreeSkipped g n = .ok g' ∧
      g'.edges = g.edges ∧ g'.state = g.state ∧
      (∀ k nd, assocFind k g.nodes = some nd →
        assocFind k g'.nodes =
          if k ∈ getDownstream g n ∧ (nd.status = .pending ∨ nd.status = .ready)
          then some { nd with status := .skipped } else some nd) ∧
      (∀ k, assocFind k g.nodes = none → assocFind k g'.nodes = none) := by
  obtain ⟨ns, hrun, hnone, hsome⟩ := markSkipList_spec (getDownstream g n) g.nodes hpres
  refine ⟨{ g with nodes := ns }, ?_, rfl, rfl, hsome, hnone⟩
  rw [markSubtreeSkipped, hrun]
  rfl

/-- C2 counterexample: `c` is downstream of `n` and is in the
non-terminal state FAILED, yet `mark_subtree_skipped(n)` leaves the
graph completely unchanged — `c` is not set to SKIPPED. -/
theorem C2_mark_counterexample :
    "c" ∈ getDownstream gC2 "n" ∧
    assocFind "c" gC2.nodes =
      some { id := "c", node_type := .action, description := "dependent",
             status := .failed, result := none, parent_id := none } ∧
    markSubtreeSkipped gC2 "n" = .ok gC2 := by
  refine ⟨?_, by decide, ?_⟩
  · simp +decide [getDownstream, bfsDownstream, depChildren, depTargets, gC2]
  · simp +decide [markSubtreeSkipped, markSkipList, getDownstream, bfsDownstream,
      depChildren, depTargets, gC2, assocFind]

/-- C2 (amended): `mark_subtree_skipped(n)` sets every node in the
downstream closure of `n` (BFS over Dependency edges only) whose status
is Pending or Ready to Skipped, and leaves every other node — Running,
Failed, or in a terminal state — unchanged, as well as every node
outside the closure. -/
theorem C2_mark_subtree_skipped (g : TaskDAG) (n : String)
    (hpres : ∀ d ∈ getDownstream g n, (assocFind d g.nodes).isSome) :
    ∃ g', markSubtreeSkipped g n = .ok g' ∧
      g'.edges = g.edges ∧ g'.state = g.state ∧
      (∀ k nd, assocFind k g.nodes = some nd →
        assocFind k g'.nodes =
          if k ∈ getDownstream g n ∧ (nd.status = .pending ∨ nd.status = .ready)
          then some { nd with status := .skipped } else some nd) ∧
      (∀ k, assocFind k g.nodes = none → assocFind k g'.nodes = none) :=
  markSubtreeSkipped_spec g n hpres

/-- Witness for `C2_mark_subtree_skipped` on a concrete graph. -/
theorem C2_mark_subtree_skipped_witness :
    (∀ d ∈ getDownstream gC2w "n", (assocFind d gC2w.nodes).isSome) ∧
    ∃ g', markSubtreeSkipped gC2w "n" = .ok g' ∧
      g'.edges = gC2w.edges ∧ g'.state = gC2w.state ∧
      (∀ k nd, assocFind k gC2w.nodes = some nd →
        assocFind k g'.nodes =
          if k ∈ getDownstream gC2w "n" ∧ (nd.status = .pending ∨ nd.status = .ready)
          then some { nd with status := .skipped } else some nd) ∧
      (∀ k, assocFind k gC2w.nodes = none → assocFind k g'.nodes = none) :=
  ⟨by simp +decide [getDownstream, bfsDownstream, depChildren, depTargets, gC2w, assocFind],
   C2_mark_subtree_skipped gC2w "n"
     (by simp +decide [getDownstream, bfsDownstream, depChildren, depTargets, gC2w, assocFind])⟩

theorem allDepsCompleted_ok_true (nodes : List (String × TaskNode)) (deps : List String)
    (h : allDepsCompleted nodes deps = .ok true) :
    ∀ d ∈ deps, ∃ nd, assocFind d nodes = some nd ∧ nd.status = .completed := by
  induction deps with
  | nil => simp
  | cons d0 rest ih =>
    intro d hd
    rw [allDepsCompleted] at h
    cases hfind : assocFind d0 nodes with
    | none => simp only [hfind] at h; cases h
    | some nd0 =>
      simp only [hfind] at h
      by_cases hst : nd0.status = .completed
      · rw [if_pos hst] at h
        rcases List.mem_cons.mp hd with hd0 | hdr
        · exact hd0 ▸ ⟨nd0, hfind, hst⟩
        · exact ih h d hdr
      · rw [if_neg hst] at h
        cases h

theorem readyScan_mem (g : TaskDAG) (entries : List (String × TaskNode)) (l : List TaskNode)
    (h : readyScan g entries = .ok l) (n : TaskNode) (hn : n ∈ l) :
    (n.status = .pending ∨ n.status = .ready) ∧
    allDepsCompleted g.nodes (getDependencyIds g.edges n.id) = .ok true := by
  induction entries generalizing l with
  | nil =>
    rw [readyScan] at h
    cases h
    cases hn
  | cons p rest ih =>
    obtain ⟨k, m⟩ := p
    rw [readyScan] at h
    by_cases hel : m.status = .pending ∨ m.status = .ready
    · rw [if_pos hel] at h
      cases hd : allDepsCompleted g.nodes (getDependencyIds g.edges m.id) with
      | error e => rw [hd] at h; cases h
      | ok b =>
        rw [hd] at h
        cases b with
        | true =>
          cases hrest : readyScan g rest with
          | error e => rw [hrest] at h; cases h
          | ok l' =>
            rw [hrest] at h
            have hl : l = m :: l' := by
              have : Except.ok (ε := ExecError) (m :: l') = .ok l := h
              exact (Except.ok.inj this).symm
            subst hl
            rcases List.mem_cons.mp hn with hnm | hnl
            · exact hnm ▸ ⟨hel, hd⟩
            · exact ih l' hrest hnl
        | false => exact ih l h hn
    · rw [if_neg hel] at h
      exact ih l h hn

/-- C5: every node returned by `get_ready_nodes` has status Pending or
Ready, and every one of its Dependency-edge predecessors is present in
the node map with status Completed — it never returns a node with a
non-Completed Dependency predecessor. -/
theorem C5_ready_nodes (g : TaskDAG) (l : List TaskNode)
    (h : getReadyNodes g = .ok l) (n : TaskNode) (hn : n ∈ l) :
    (n.status = .pending ∨ n.status = .ready) ∧
    ∀ d ∈ getDependencyIds g.edges n.id,
      ∃ nd, assocFind d g.nodes = some nd ∧ nd.status = .completed := by
  obtain ⟨hst, hdeps⟩ := readyScan_mem g g.nodes l h n hn
  exact ⟨hst, allDepsCompleted_ok_true g.nodes _ hdeps⟩

/-- Witness for `C5_ready_nodes` on a concrete graph. -/
theorem C5_ready_nodes_witness :
    getReadyNodes gC5w = .ok [nodeBC5] ∧ nodeBC5 ∈ [nodeBC5] ∧
    ((nodeBC5.status = .pending ∨ nodeBC5.status = .ready) ∧
     ∀ d ∈ getDependencyIds gC5w.edges nodeBC5.id,
       ∃ nd, assocFind d gC5w.nodes = some nd ∧ nd.status = .completed) :=
  ⟨by decide, by decide,
   C5_ready_nodes gC5w [nodeBC5] (by decide) nodeBC5 (by decide)⟩

theorem assocFind_eq_none_iff {α : Type} (k : String) (m : List (String × α)) :
    assocFind k m = none ↔ k ∉ m.map Prod.fst := by
  induction m with
  | nil => simp [assocFind]
  | cons p rest ih =>
    obtain ⟨a, b⟩ := p
    by_cases h : a = k
    · subst h
      simp [assocFind]
    · have hne : ¬ k = a := fun hh => h hh.symm
      simp [assocFind, h, ih, hne]

theorem assocErase_find_other {α : Type} (k k' : String) (m : List (String × α))
    (h : k ≠ k') : assocFind k' (assocErase k m) = assocFind k' m := by
  induction m with
  | nil => rfl
  | cons p rest ih =>
    obtain ⟨a, b⟩ := p
    by_cases hak : a = k
    · subst hak
      have : a ≠ k' := h
      simp [assocErase, assocFind, this]
    · by_cases hak' : a = k'
      · subst hak'
        simp [assocErase, assocFind, hak]
      · simp [assocErase, assocFind, hak, hak', ih]

theorem assocErase_find_self {α : Type} (k : String) (m : List (String × α))
    (hnodup : (m.map Prod.fst).Nodup) : assocFind k (assocErase k m) = none := by
  induction m with
  | nil => rfl
  | cons p rest ih =>
    obtain ⟨a, b⟩ := p
    simp only [List.map_cons, List.nodup_cons] at hnodup
    by_cases hak : a = k
    · subst hak
      simp only [assocErase, if_pos rfl]
      exact (assocFind_eq_none_iff a rest).mpr hnodup.1
    · simp [assocErase, assocFind, hak, ih hnodup.2]

/-- C7: `remove_pending_node(id)` returns false and leaves the graph
(nodes, edges and stored results) completely unchanged when the target
is absent or not PENDING; when the target is PENDING it returns true,
deletes the node, purges every incident edge (as source or target) and
no others, and deletes any stored result under the id. -/
theorem C7_remove_pending_node (g : TaskDAG) (node_id : String)
    (hnodup : (g.nodes.map Prod.fst).Nodup)
    (hrnodup : (g.state.node_results.map Prod.fst).Nodup) :
    ((assocFind node_id g.nodes = none ∨
        (∃ nd, assocFind node_id g.nodes = some nd ∧ nd.status ≠ .pending)) →
      removePendingNode g node_id = (false, g)) ∧
    (∀ nd, assocFind node_id g.nodes = some nd → nd.status = .pending →
      (removePendingNode g node_id).1 = true ∧
      assocFind node_id (removePendingNode g node_id).2.nodes = none ∧
      (∀ k, k ≠ node_id →
        assocFind k (removePendingNode g node_id).2.nodes = assocFind k g.nodes) ∧
      (∀ e ∈ (removePendingNode g node_id).2.edges,
        e.source ≠ node_id ∧ e.target ≠ node_id) ∧
      (∀ e ∈ g.edges, e.source ≠ node_id → e.target ≠ node_id →
        e ∈ (removePendingNode g node_id).2.edges) ∧
      assocFind node_id (removePendingNode g node_id).2.state.node_results = none ∧
      (∀ k, k ≠ node_id →
        assocFind k (removePendingNode g node_id).2.state.node_results =
          assocFind k g.state.node_results) ∧
      (removePendingNode g node_id).2.state.task = g.state.task ∧
      (removePendingNode g node_id).2.state.context = g.state.context) := by
  constructor
  · rintro (hnone | ⟨nd, hfind, hst⟩)
    · simp [removePendingNode, hnone]
    · simp [removePendingNode, hfind, hst]
  · intro nd hfind hst
    have hrm : removePendingNode g node_id =
        (true,
          { g with
            nodes := assocErase node_id g.nodes
            edges := g.edges.filter (fun e => e.source ≠ node_id ∧ e.target ≠ node_id)
            state := { g.state with
              node_results := assocErase node_id g.state.node_results } }) := by
      simp [removePendingNode, hfind, hst]
    rw [hrm]
    refine ⟨rfl, assocErase_find_self _ _ hnodup, ?_, ?_, ?_,
      assocErase_find_self _ _ hrnodup, ?_, rfl, rfl⟩
    · intro k hk
      exact assocErase_find_other _ _ _ (fun h => hk h.symm)
    · intro e he
      have := List.mem_filter.mp he
      simpa using this.2
    · intro e he hs ht
      exact List.mem_filter.mpr ⟨he, by simp [hs, ht]⟩
    · intro k hk
      exact assocErase_find_other _ _ _ (fun h => hk h.symm)

/-- Witness for `C7_remove_pending_node` on a concrete graph with a
PENDING target. -/
theorem C7_remove_pending_node_witness :
    assocFind "x" gC7w.nodes = some nodeXC7 ∧ nodeXC7.status = .pending ∧
    ((removePendingNode gC7w "x").1 = true ∧
      assocFind "x" (removePendingNode gC7w "x").2.nodes = none ∧
      (∀ k, k ≠ "x" →
        assocFind k (removePendingNode gC7w "x").2.nodes = assocFind k gC7w.nodes) ∧
      (∀ e ∈ (removePendingNode gC7w "x").2.edges, e.source ≠ "x" ∧ e.target ≠ "x") ∧
      (∀ e ∈ gC7w.edges, e.source ≠ "x" → e.target ≠ "x" →
        e ∈ (removePendingNode gC7w "x").2.edges) ∧
      assocFind "x" (removePendingNode gC7w "x").2.state.node_results = none ∧
      (∀ k, k ≠ "x" →
        assocFind k (removePendingNode gC7w "x").2.state.node_results =
          assocFind k gC7w.state.node_results) ∧
      (removePendingNode gC7w "x").2.state.task = gC7w.state.task ∧
      (removePendingNode gC7w "x").2.state.context = gC7w.state.context) :=
  ⟨by decide, by decide,
   (C7_remove_pending_node gC7w "x" (by decide) (by decide)).2 nodeXC7
     (by decide) (by decide)⟩

theorem assocFind_mem {α : Type} (k : String) (v : α) (m : List (String × α))
    (h : assocFind k m = some v) : (k, v) ∈ m := by
  induction m with
  | nil => cases h
  | cons p rest ih =>
    obtain ⟨a, b⟩ := p
    rw [assocFind] at h
    by_cases hak : a = k
    · subst hak
      rw [if_pos rfl] at h
      cases h
      exact List.mem_cons_self _ _
    · rw [if_neg hak] at h
      exact List.mem_cons_of_mem _ (ih h)

theorem assocFind_of_mem_nodup {α : Type} (m : List (String × α))
    (hnodup : (m.map Prod.fst).Nodup) (k : String) (v : α) (hm : (k, v) ∈ m) :
    assocFind k m = some v := by
  induction m with
  | nil => cases hm
  | cons p rest ih =>
    obtain ⟨a, b⟩ := p
    simp only [List.map_cons, List.nodup_cons] at hnodup
    rcases List.mem_cons.mp hm with heq | hrest
    · cases heq
      simp [assocFind]
    · have hk : k ∈ rest.map Prod.fst := List.mem_map.mpr ⟨(k, v), hrest, rfl⟩
      have hak : a ≠ k := fun h => hnodup.1 (h ▸ hk)
      simp [assocFind, hak, ih hnodup.2 hrest]

theorem allDepsCompleted_error_shape (nodes : List (String × TaskNode))
    (deps : List String) (e : ExecError) (h : allDepsCompleted nodes deps = .error e) :
    ∃ d, e = .keyError d := by
  induction deps with
  | nil => cases h
  | cons d0 rest ih =>
    rw [allDepsCompleted] at h
    cases hf : assocFind d0 nodes with
    | none =>
      simp only [hf] at h
      exact ⟨d0, (Except.error.inj h).symm⟩
    | some nd0 =>
      simp only [hf] at h
      by_cases hst : nd0.status = .completed
      · rw [if_pos hst] at h
        exact ih h
      · rw [if_neg hst] at h
        cases h

theorem allDepsCompleted_error (nodes : List (String × TaskNode)) (deps : List String)
    (hall : ∀ d ∈ deps, assocFind d nodes = none ∨
      ∃ nd, assocFind d nodes = some nd ∧ nd.status = .completed)
    (hmiss : ∃ d ∈ deps, assocFind d nodes = none) :
    ∃ d, allDepsCompleted nodes deps = .error (.keyError d) := by
  induction deps with
  | nil => simp at hmiss
  | cons d0 rest ih =>
    rw [allDepsCompleted]
    cases hf : assocFind d0 nodes with
    | none => exact ⟨d0, by simp [hf]⟩
    | some nd0 =>
      have hc : nd0.status = .completed := by
        rcases hall d0 (by simp) with hn | ⟨nd, hnd, hcc⟩
        · rw [hf] at hn; cases hn
        · rw [hf] at hnd; cases hnd; exact hcc
      have hmiss' : ∃ d ∈ rest, assocFind d nodes = none := by
        obtain ⟨d, hd, hdn⟩ := hmiss
        rcases List.mem_cons.mp hd with rfl | hdr
        · rw [hf] at hdn; cases hdn
        · exact ⟨d, hdr, hdn⟩
      obtain ⟨d, hds⟩ := ih (fun x hx => hall x (by simp [hx])) hmiss'
      exact ⟨d, by simp [hf, hc, hds]⟩

theorem readyScan_error (g : TaskDAG) (entries : List (String × TaskNode))
    (hex : ∃ p ∈ entries, (p.2.status = .pending ∨ p.2.status = .ready) ∧
      ∃ d, allDepsCompleted g.nodes (getDependencyIds g.edges p.2.id) =
        .error (.keyError d)) :
    ∃ d, readyScan g entries = .error (.keyError d) := by
  induction entries with
  | nil => simp at hex
  | cons p rest ih =>
    obtain ⟨k, m⟩ := p
    rw [readyScan]
    by_cases hel : m.status = .pending ∨ m.status = .ready
    · rw [if_pos hel]
      cases hdc : allDepsCompleted g.nodes (getDependencyIds g.edges m.id) with
      | error e =>
        obtain ⟨d, hd⟩ := allDepsCompleted_error_shape _ _ _ hdc
        exact ⟨d, by rw [hd]⟩
      | ok b =>
        have hex' : ∃ p ∈ rest, (p.2.status = .pending ∨ p.2.status = .ready) ∧
            ∃ d, allDepsCompleted g.nodes (getDependencyIds g.edges p.2.id) =
              .error (.keyError d) := by
          obtain ⟨q, hq, hqel, d, hqd⟩ := hex
          rcases List.mem_cons.mp hq with rfl | hqr
          · rw [hdc] at hqd; cases hqd
          · exact ⟨q, hqr, hqel, d, hqd⟩
        obtain ⟨d, hd⟩ := ih hex'
        cases b with
        | true => exact ⟨d, by rw [hd]; rfl⟩
        | false => exact ⟨d, hd⟩
    · rw [if_neg hel]
      apply ih
      obtain ⟨q, hq, hqel, hqd⟩ := hex
      rcases List.mem_cons.mp hq with rfl | hqr
      · exact absurd hqel hel
      · exact ⟨q, hqr, hqel, hqd⟩

theorem refreshScan_error (edges : List TaskEdge) (base : List (String × TaskNode))
    (entries cur : List (String × TaskNode))
    (hsub : ∀ p ∈ entries, assocFind p.1 base = some p.2)
    (hinvN : ∀ d, assocFind d base = none → assocFind d cur = none)
    (hinvC : ∀ d nd, assocFind d base = some nd → nd.status = .completed →
      assocFind d cur = some nd)
    (hex : ∃ p ∈ entries, p.2.status = .pending ∧
      (∀ d ∈ getDependencyIds edges p.2.id, assocFind d base = none ∨
        ∃ nd, assocFind d base = some nd ∧ nd.status = .completed) ∧
      (∃ d ∈ getDependencyIds edges p.2.id, assocFind d base = none)) :
    ∃ d, refreshScan edges entries cur = .error (.keyError d) := by
  induction entries generalizing cur with
  | nil => simp at hex
  | cons p rest ih =>
    obtain ⟨k, n⟩ := p
    rw [refreshScan]
    have hcurdeps : ∀ q : String × TaskNode, q.2.status = .pending →
        (∀ d ∈ getDependencyIds edges q.2.id, assocFind d base = none ∨
          ∃ nd, assocFind d base = some nd ∧ nd.status = .completed) →
        (∃ d ∈ getDependencyIds edges q.2.id, assocFind d base = none) →
        ∃ d, allDepsCompleted cur (getDependencyIds edges q.2.id) =
          .error (.keyError d) := by
      intro q _ hall hmiss
      apply allDepsCompleted_error
      · intro d hd
        rcases hall d hd with hn | ⟨nd, hnd, hcc⟩
        · exact Or.inl (hinvN d hn)
        · exact Or.inr ⟨nd, hinvC d nd hnd hcc, hcc⟩
      · obtain ⟨d, hd, hdn⟩ := hmiss
        exact ⟨d, hd, hinvN d hdn⟩
    by_cases hp : n.status = .pending
    · rw [if_pos hp]
      cases hdc : allDepsCompleted cur (getDependencyIds edges n.id) with
      | error e =>
        obtain ⟨d, hd⟩ := allDepsCompleted_error_shape _ _ _ hdc
        exact ⟨d, by rw [hd]⟩
      | ok b =>
        have hex' : ∃ q ∈ rest, q.2.status = .pending ∧
            (∀ d ∈ getDependencyIds edges q.2.id, assocFind d base = none ∨
              ∃ nd, assocFind d base = some nd ∧ nd.status = .completed) ∧
            (∃ d ∈ getDependencyIds edges q.2.id, assocFind d base = none) := by
          obtain ⟨q, hq, hqp, hqall, hqmiss⟩ := hex
          obtain ⟨d0, hd0⟩ := hcurdeps q hqp hqall hqmiss
          rcases List.mem_cons.mp hq with heq | hqr
          · exfalso
            rw [heq] at hd0
            have hd1 : allDepsCompleted cur (getDependencyIds edges n.id) =
                .error (.keyError d0) := hd0
            rw [hdc] at hd1
            cases hd1
          · exact ⟨q, hqr, hqp, hqall, hqmiss⟩
        have hsub' : ∀ q ∈ rest, assocFind q.1 base = some q.2 :=
          fun q hq => hsub q (by simp [hq])
        cases b with
        | true =>
          have hkn : assocFind k base = some n := hsub (k, n) (by simp)
          refine ih (assocSet k { n with status := .ready } cur) hsub' ?_ ?_ hex'
          · intro d hd
            have hkd : k ≠ d := fun h => by rw [h, hd] at hkn; cases hkn
            rw [assocFind_assocSet]
            simp [hkd, hinvN d hd]
          · intro d nd hnd hcc
            have hkd : k ≠ d := by
              intro h
              subst h
              rw [hkn] at hnd
              cases hnd
              rw [hcc] at hp
              cases hp
            rw [assocFind_assocSet]
            simp [hkd, hinvC d nd hnd hcc]
        | false => exact ih cur hsub' hinvN hinvC hex'
    · rw [if_neg hp]
      apply ih cur (fun q hq => hsub q (by simp [hq])) hinvN hinvC
      obtain ⟨q, hq, hqp, hqrest⟩ := hex
      rcases List.mem_cons.mp hq with heq | hqr
      · rw [heq] at hqp
        exact absurd (show n.status = NodeStatus.pending from hqp) hp
      · exact ⟨q, hqr, hqp, hqrest⟩

theorem validateDag_ne_nil_of_missing_source (g : TaskDAG) (e : TaskEdge)
    (he : e ∈ g.edges) (hn : assocFind e.source g.nodes = none) :
    validateDag g ≠ [] := by
  rw [validateDag]
  generalize g.edges = l at he
  induction l with
  | nil => cases he
  | cons e0 rest ih =>
    rw [List.foldr_cons]
    rcases List.mem_cons.mp he with heq | her
    · subst heq
      simp [hn]
    · intro hcontra
      rcases List.append_eq_nil.mp hcontra with ⟨_, h3⟩
      exact ih her h3

/-- C9: `get_ready_nodes` and `refresh_ready_states` are total only
when every Dependency edge source is present in the node map.  For a
graph with a Dependency edge whose source id is absent — which the
constructor accepts, emitting only a validation warning — both
operations raise a `KeyError` when they examine that edge's target (a
PENDING node whose other dependencies are absent or COMPLETED). -/
theorem C9_dangling_dependency (g : TaskDAG) (k : String) (t : TaskNode)
    (hnodup : (g.nodes.map Prod.fst).Nodup)
    (hk : assocFind k g.nodes = some t)
    (hst : t.status = .pending)
    (hall : ∀ d ∈ getDependencyIds g.edges t.id,
      assocFind d g.nodes = none ∨
        ∃ nd, assocFind d g.nodes = some nd ∧ nd.status = .completed)
    (hmiss : ∃ d ∈ getDependencyIds g.edges t.id, assocFind d g.nodes = none) :
    validateDag g ≠ [] ∧
    (∃ d, getReadyNodes g = .error (.keyError d)) ∧
    (∃ d, refreshReadyStates g = .error (.keyError d)) := by
  have hmem : (k, t) ∈ g.nodes := assocFind_mem k t g.nodes hk
  refine ⟨?_, ?_, ?_⟩
  · obtain ⟨d, hd, hdn⟩ := hmiss
    obtain ⟨e, he, hes⟩ : ∃ e ∈ g.edges, e.source = d := by
      unfold getDependencyIds at hd
      obtain ⟨e, he, hesrc⟩ := List.mem_map.mp hd
      exact ⟨e, (List.mem_filter.mp he).1, hesrc⟩
    exact validateDag_ne_nil_of_missing_source g e he (hes ▸ hdn)
  · apply readyScan_error
    exact ⟨(k, t), hmem, Or.inl hst,
      allDepsCompleted_error g.nodes _ hall hmiss⟩
  · obtain ⟨d, hd⟩ := refreshScan_error g.edges g.nodes g.nodes g.nodes
      (fun p hp => assocFind_of_mem_nodup g.nodes hnodup p.1 p.2 hp)
      (fun _ h => h) (fun _ _ h _ => h)
      ⟨(k, t), hmem, hst, hall, hmiss⟩
    refine ⟨d, ?_⟩
    rw [refreshReadyStates, hd]
    rfl

/-- Witness for `C9_dangling_dependency` on a concrete graph with a
dangling Dependency edge source. -/
theorem C9_dangling_dependency_witness :
    ((gC9w.nodes.map Prod.fst).Nodup ∧
     assocFind "t" gC9w.nodes = some nodeTC9 ∧
     nodeTC9.status = .pending ∧
     (∀ d ∈ getDependencyIds gC9w.edges nodeTC9.id,
       assocFind d gC9w.nodes = none ∨
         ∃ nd, assocFind d gC9w.nodes = some nd ∧ nd.status = .completed) ∧
     (∃ d ∈ getDependencyIds gC9w.edges nodeTC9.id, assocFind d gC9w.nodes = none)) ∧
    (validateDag gC9w ≠ [] ∧
     (∃ d, getReadyNodes gC9w = .error (.keyError d)) ∧
     (∃ d, refreshReadyStates gC9w = .error (.keyError d))) :=
  ⟨⟨by decide, by decide, by decide, by decide, by decide⟩,
   C9_dangling_dependency gC9w "t" nodeTC9 (by decide) (by decide) (by decide)
     (by decide) (by decide)⟩

theorem compileParts_eq_filterMap (l : List (String × TaskNode)) :
    compileParts l = (l.map Prod.snd).filterMap (fun n =>
      if n.node_type = .action ∧ n.status = .completed then
        match n.result with
        | some r => if r = "" then none else some r
        | none => none
      else none) := by
  induction l with
  | nil => rfl
  | cons p rest ih =>
    obtain ⟨k, n⟩ := p
    by_cases hc : n.node_type = .action ∧ n.status = .completed
    · cases hr : n.result with
      | none => simp [compileParts, hc, hr, ih]
      | some r =>
        by_cases hre : r = ""
        · simp [compileParts, hc, hr, hre, ih]
        · simp [compileParts, hc, hr, hre, ih]
    · simp [compileParts, hc, ih]

/-- C6 counterexample: the graph has a COMPLETED ACTION node, yet the
compiled output is the "nothing completed" sentinel, not the
concatenation of the stored results of completed ACTION nodes
(the completed node's result is the empty string, which the code's
truthiness test drops). -/
theorem C6_compile_counterexample :
    (∃ p ∈ gC6.nodes, p.2.node_type = .action ∧ p.2.status = .completed) ∧
    compileOutput gC6 = "No action nodes completed successfully." ∧
    specCompileOutput gC6 = "" ∧
    compileOutput gC6 ≠ specCompileOutput gC6 := by
  refine ⟨⟨gC6.nodes.head (by decide), by decide, by decide⟩, by decide, by decide, by decide⟩

/-- C6 (amended): the compiled output joins, in node iteration order,
the non-`None`, non-empty stored results of the ACTION nodes whose
final status is Completed, separated by blank lines; if no completed
ACTION node carries a non-empty result, it is the explicit "nothing
completed" sentinel string, and no exception is raised (the function is
total). -/
theorem C6_compile_output (g : TaskDAG) :
    compileOutput g = amendedCompileOutput g := by
  rw [compileOutput, amendedCompileOutput, compileParts_eq_filterMap]

theorem skipChange_refl (m : List (String × TaskNode)) : skipChange m m :=
  ⟨fun _ h => h, fun _ nd h => ⟨nd, h, Or.inl rfl⟩⟩

theorem skipChange_trans {a b c : List (String × TaskNode)}
    (h1 : skipChange a b) (h2 : skipChange b c) : skipChange a c := by
  refine ⟨fun k h => h2.1 k (h1.1 k h), fun k nd h => ?_⟩
  obtain ⟨nd1, hb, hc1⟩ := h1.2 k nd h
  obtain ⟨nd2, hcf, hc2⟩ := h2.2 k nd1 hb
  refine ⟨nd2, hcf, ?_⟩
  rcases hc1 with h1e | ⟨h1st, h1sk⟩
  · subst h1e
    exact hc2
  · rcases hc2 with h2e | ⟨h2st, _⟩
    · subst h2e
      exact Or.inr ⟨h1st, h1sk⟩
    · rw [h1sk] at h2st
      rcases h2st with hx | hx <;> cases hx

theorem skipChange_assocSet (m : List (String × TaskNode)) (k0 : String) (nd0 : TaskNode)
    (hfind : assocFind k0 m = some nd0)
    (hst : nd0.status = .pending ∨ nd0.status = .ready) :
    skipChange m (assocSet k0 { nd0 with status := .skipped } m) := by
  constructor
  · intro k h
    rw [assocFind_assocSet]
    have hne : k0 ≠ k := fun he => by rw [he, h] at hfind; cases hfind
    simp [hne, h]
  · intro k nd h
    rw [assocFind_assocSet]
    by_cases hk : k0 = k
    · subst hk
      rw [hfind] at h
      cases h
      exact ⟨_, by simp, Or.inr ⟨hst, rfl⟩⟩
    · simp only [if_neg hk]
      exact ⟨nd, h, Or.inl rfl⟩

theorem markSkipList_skipChange (l : List String) (m ns : List (String × TaskNode))
    (h : markSkipList m l = .ok ns) : skipChange m ns := by
  induction l generalizing m with
  | nil =>
    rw [markSkipList] at h
    cases h
    exact skipChange_refl _
  | cons nid rest ih =>
    rw [markSkipList] at h
    cases hf : assocFind nid m with
    | none => simp only [hf] at h; cases h
    | some node =>
      simp only [hf] at h
      by_cases hst : node.status = .pending ∨ node.status = .ready
      · rw [if_pos hst] at h
        exact skipChange_trans (skipChange_assocSet m nid node hf hst) (ih _ h)
      · rw [if_neg hst] at h
        exact ih m h

theorem markSubtreeSkipped_skipChange (g : TaskDAG) (nid : String) (g' : TaskDAG)
    (h : markSubtreeSkipped g nid = .ok g') : skipChange g.nodes g'.nodes := by
  rw [markSubtreeSkipped] at h
  cases hrun : markSkipList g.nodes (getDownstream g nid) with
  | error e => rw [hrun] at h; cases h
  | ok ns =>
    rw [hrun] at h
    cases h
    exact markSkipList_skipChange _ _ _ hrun

theorem smApply_ok (node : TaskNode) (s : NodeStatus) (nd' : TaskNode)
    (h : smApply node s = .ok nd') :
    nd' = { node with status := s } ∧ s ∈ VALID_TRANSITIONS node.status := by
  rw [smApply, transition] at h
  by_cases hc : canTransition node s = true
  · rw [if_neg (by simp [hc])] at h
    refine ⟨(Except.ok.inj h).symm, ?_⟩
    rw [canTransition, decide_eq_true_iff] at hc
    exact hc
  · rw [if_pos (by simpa using hc)] at h
    cases h

theorem assocSet_self {α : Type} (k : String) (v : α) (m : List (String × α))
    (h : assocFind k m = some v) : assocSet k v m = m := by
  induction m with
  | nil => cases h
  | cons p rest ih =>
    obtain ⟨a, b⟩ := p
    rw [assocFind] at h
    by_cases hak : a = k
    · rw [if_pos hak] at h
      cases h
      rw [assocSet, if_pos hak, hak]
    · rw [if_neg hak] at h
      rw [assocSet, if_neg hak, ih h]

theorem except_bind_ok {ε α β : Type} (a : α) (f : α → Except ε β) :
    (Except.ok a >>= f) = f a := rfl

theorem except_bind_error {ε α β : Type} (e : ε) (f : α → Except ε β) :
    ((Except.error e : Except ε α) >>= f) = Except.error e := rfl

theorem except_map_ok {ε α β : Type} (f : α → β) (a : α) :
    (Except.map f (Except.ok a) : Except ε β) = Except.ok (f a) := rfl

theorem except_map_error {ε α β : Type} (f : α → β) (e : ε) :
    (Except.map f (Except.error e) : Except ε β) = Except.error e := rfl

theorem processCondEdge_skipChange (g : TaskDAG) (e : TaskEdge) (g' : TaskDAG)
    (h : processCondEdge g e = .ok g') : skipChange g.nodes g'.nodes := by
  rw [processCondEdge] at h
  cases hf : assocFind e.target g.nodes with
  | none => simp only [hf] at h; cases h; exact skipChange_refl _
  | some t =>
    simp only [hf] at h
    by_cases hp : t.status ≠ .pending
    · rw [if_pos hp] at h; cases h; exact skipChange_refl _
    · rw [if_neg hp] at h
      by_cases hev : evaluateCondition e g = true
      · rw [if_pos hev] at h; cases h; exact skipChange_refl _
      · rw [if_neg hev] at h
        have hstep : skipChange g.nodes
            (assocSet e.target { t with status := .skipped } g.nodes) :=
          skipChange_assocSet _ _ _ hf (Or.inl (not_not.mp hp))
        exact skipChange_trans hstep (markSubtreeSkipped_skipChange _ _ _ h)

theorem processCondEdges_skipChange (es : List TaskEdge) (g g' : TaskDAG)
    (h : processCondEdges g es = .ok g') : skipChange g.nodes g'.nodes := by
  induction es generalizing g with
  | nil => rw [processCondEdges] at h; cases h; exact skipChange_refl _
  | cons e rest ih =>
    rw [processCondEdges] at h
    cases hpe : processCondEdge g e with
    | error err => rw [hpe, except_bind_error] at h; cases h
    | ok g1 =>
      rw [hpe, except_bind_ok] at h
      exact skipChange_trans (processCondEdge_skipChange g e g1 hpe) (ih g1 h)

theorem processConditionsScan_skipChange (ids : List String) (g g' : TaskDAG)
    (h : processConditionsScan g ids = .ok g') : skipChange g.nodes g'.nodes := by
  induction ids generalizing g with
  | nil => rw [processConditionsScan] at h; cases h; exact skipChange_refl _
  | cons nid rest ih =>
    rw [processConditionsScan] at h
    cases hf : assocFind nid g.nodes with
    | none => simp only [hf] at h; exact ih g h
    | some node =>
      simp only [hf] at h
      by_cases hc : node.status ≠ .completed
      · rw [if_pos hc] at h
        exact ih g h
      · rw [if_neg hc] at h
        cases hpe : processCondEdges g (getConditionalEdges g.edges node.id) with
        | error err => rw [hpe] at h; cases h
        | ok g1 =>
          rw [hpe] at h
          exact skipChange_trans (processCondEdges_skipChange _ g g1 hpe) (ih g1 h)

theorem processConditions_skipChange (g g' : TaskDAG)
    (h : processConditions g = .ok g') : skipChange g.nodes g'.nodes :=
  processConditionsScan_skipChange _ g g' h

theorem chainChange_refl (m : List (String × TaskNode)) : chainChange m m :=
  ⟨fun _ h => h, fun _ nd h => ⟨nd, h, Relation.ReflTransGen.refl⟩⟩

theorem chainChange_trans {a b c : List (String × TaskNode)}
    (h1 : chainChange a b) (h2 : chainChange b c) : chainChange a c := by
  refine ⟨fun k h => h2.1 k (h1.1 k h), fun k nd h => ?_⟩
  obtain ⟨nd1, hb, hc1⟩ := h1.2 k nd h
  obtain ⟨nd2, hcf, hc2⟩ := h2.2 k nd1 hb
  exact ⟨nd2, hcf, hc1.trans hc2⟩

theorem skipChange_chainChange {a b : List (String × TaskNode)}
    (h : skipChange a b) : chainChange a b := by
  refine ⟨h.1, fun k nd hk => ?_⟩
  obtain ⟨nd', hb, hc⟩ := h.2 k nd hk
  refine ⟨nd', hb, ?_⟩
  rcases hc with rfl | ⟨hst, hsk⟩
  · exact Relation.ReflTransGen.refl
  · rw [hsk]
    refine Relation.ReflTransGen.single ?_
    rcases hst with hst | hst <;> simp [hst, VALID_TRANSITIONS]

theorem chainStep_of_if (node : TaskNode) (cond : Prop) [Decidable cond]
    (s : NodeStatus) (n1 : TaskNode)
    (h : (if cond then smApply node s else Except.ok node) = .ok n1) :
    Relation.ReflTransGen (fun a b => b ∈ VALID_TRANSITIONS a) node.status n1.status := by
  by_cases hc : cond
  · rw [if_pos hc] at h
    obtain ⟨he, hmem⟩ := smApply_ok _ _ _ h
    subst he
    exact Relation.ReflTransGen.single hmem
  · rw [if_neg hc] at h
    cases h
    exact Relation.ReflTransGen.refl

theorem completeStructStep_chainChange (g : TaskDAG) (nid : String) (g' : TaskDAG)
    (h : completeStructStep g nid = .ok g') : chainChange g.nodes g'.nodes := by
  rw [completeStructStep] at h
  cases hf : assocFind nid g.nodes with
  | none => simp only [hf] at h; cases h; exact chainChange_refl _
  | some node =>
    simp only [hf] at h
    by_cases hty : node.node_type = .action
    · rw [if_pos hty] at h; cases h; exact chainChange_refl _
    · rw [if_neg hty] at h
      by_cases hterm : isTerminal node.status = true
      · rw [if_pos hterm] at h; cases h; exact chainChange_refl _
      · rw [if_neg hterm] at h
        by_cases hemp : ((g.nodes.map Prod.snd).filter
            (fun c => c.parent_id = some node.id)).isEmpty = true
        · rw [if_pos hemp] at h; cases h; exact chainChange_refl _
        · rw [if_neg hemp] at h
          by_cases hall : ((g.nodes.map Prod.snd).filter
              (fun c => c.parent_id = some node.id)).all
                (fun c => isTerminal c.status) = true
          · rw [if_pos hall] at h
            by_cases hany : ((g.nodes.map Prod.snd).filter
                (fun c => c.parent_id = some node.id)).any
                  (fun c => c.status = .completed) = true
            · rw [if_pos hany] at h
              cases hx1 : (if node.status = .pending then smApply node .ready
                  else Except.ok node) with
              | error e => rw [hx1, except_bind_error] at h; cases h
              | ok n1 =>
                rw [hx1, except_bind_ok] at h
                cases hx2 : (if n1.status = .ready then smApply n1 .running
                    else Except.ok n1) with
                | error e => rw [hx2, except_bind_error] at h; cases h
                | ok n2 =>
                  rw [hx2, except_bind_ok] at h
                  cases hx3 : (if n2.status = .running then smApply n2 .completed
                      else Except.ok n2) with
                  | error e => rw [hx3, except_bind_error] at h; cases h
                  | ok n3 =>
                    rw [hx3, except_bind_ok] at h
                    cases h
                    have hsteps : Relation.ReflTransGen
                        (fun a b => b ∈ VALID_TRANSITIONS a) node.status n3.status :=
                      ((chainStep_of_if node _ _ n1 hx1).trans
                        (chainStep_of_if n1 _ _ n2 hx2)).trans
                          (chainStep_of_if n2 _ _ n3 hx3)
                    constructor
                    · intro k hk
                      rw [assocFind_assocSet]
                      have hne : nid ≠ k := fun he => by rw [he, hk] at hf; cases hf
                      simp [hne, hk]
                    · intro k nd hknd
                      rw [assocFind_assocSet]
                      by_cases hkn : nid = k
                      · subst hkn
                        rw [hf] at hknd
                        cases hknd
                        exact ⟨n3, by simp, hsteps⟩
                      · simp only [if_neg hkn]
                        exact ⟨nd, hknd, Relation.ReflTransGen.refl⟩
            · rw [if_neg hany] at h
              by_cases hpr : node.status = .pending ∨ node.status = .ready
              · rw [if_pos hpr] at h
                cases h
                exact skipChange_chainChange (skipChange_assocSet _ _ _ hf hpr)
              · rw [if_neg hpr] at h; cases h; exact chainChange_refl _
          · rw [if_neg hall] at h; cases h; exact chainChange_refl _

theorem completeStructuralScan_chainChange (ids : List String) (g g' : TaskDAG)
    (h : completeStructuralScan g ids = .ok g') : chainChange g.nodes g'.nodes := by
  induction ids generalizing g with
  | nil => rw [completeStructuralScan] at h; cases h; exact chainChange_refl _
  | cons nid rest ih =>
    rw [completeStructuralScan] at h
    cases hs : completeStructStep g nid with
    | error e => rw [hs] at h; cases h
    | ok g1 =>
      rw [hs] at h
      exact chainChange_trans (completeStructStep_chainChange g nid g1 hs) (ih g1 h)

theorem promoteChange_refl (m : List (String × TaskNode)) : promoteChange m m :=
  ⟨fun _ h => h, fun _ nd h => ⟨nd, h, Or.inl rfl⟩⟩

theorem promoteChange_trans (a b c : List (String × TaskNode))
    (h1 : promoteChange a b) (h2 : promoteChange b c) : promoteChange a c := by
  refine ⟨fun k h => h2.1 k (h1.1 k h), fun k nd h => ?_⟩
  obtain ⟨nd', hf', hc'⟩ := h1.2 k nd h
  obtain ⟨nd'', hf'', hc''⟩ := h2.2 k nd' hf'
  refine ⟨nd'', hf'', ?_⟩
  rcases hc' with rfl | ⟨hp', rfl⟩
  · exact hc''
  · rcases hc'' with rfl | ⟨hp'', _⟩
    · exact Or.inr ⟨hp', rfl⟩
    · simp at hp''

theorem refreshScan_promoteChange (edges : List TaskEdge)
    (entries : List (String × TaskNode)) :
    ∀ cur ns, (entries.map Prod.fst).Nodup →
    (∀ p ∈ entries, assocFind p.1 cur = some p.2) →
    refreshScan edges entries cur = .ok ns → promoteChange cur ns := by
  induction entries with
  | nil =>
    intro cur ns _ _ h
    rw [refreshScan] at h
    cases h
    exact promoteChange_refl _
  | cons p rest ih =>
    obtain ⟨k, n⟩ := p
    intro cur ns hnd hin h
    rw [refreshScan] at h
    have hfk : assocFind k cur = some n := hin (k, n) (List.mem_cons_self _ _)
    have hnd2 : (rest.map Prod.fst).Nodup := (List.nodup_cons.mp hnd).2
    have hknr : k ∉ rest.map Prod.fst := (List.nodup_cons.mp hnd).1
    by_cases hp : n.status = NodeStatus.pending
    · rw [if_pos hp] at h
      cases hdc : allDepsCompleted cur (getDependencyIds edges n.id) with
      | error e => rw [hdc] at h; cases h
      | ok b =>
        rw [hdc] at h
        cases b with
        | false =>
          exact ih cur ns hnd2 (fun q hq => hin q (List.mem_cons_of_mem _ hq)) h
        | true =>
          have hstep : promoteChange cur
              (assocSet k { n with status := NodeStatus.ready } cur) := by
            constructor
            · intro k' hk'
              rw [assocFind_assocSet]
              by_cases hkk : k = k'
              · rw [← hkk] at hk'
                rw [hfk] at hk'
                cases hk'
              · rw [if_neg hkk]
                exact hk'
            · intro k' nd hk'
              rw [assocFind_assocSet]
              by_cases hkk : k = k'
              · rw [← hkk] at hk'
                rw [hfk] at hk'
                injection hk' with hnd0
                refine ⟨{ n with status := NodeStatus.ready }, by rw [if_pos hkk],
                  Or.inr ⟨?_, ?_⟩⟩
                · rw [← hnd0]
                  exact hp
                · rw [← hnd0]
              · exact ⟨nd, by rw [if_neg hkk]; exact hk', Or.inl rfl⟩
          have hin2 : ∀ q ∈ rest,
              assocFind q.1 (assocSet k { n with status := NodeStatus.ready } cur) =
                some q.2 := by
            intro q hq
            rw [assocFind_assocSet, if_neg]
            · exact hin q (List.mem_cons_of_mem _ hq)
            · intro hkq
              apply hknr
              rw [hkq]
              exact List.mem_map_of_mem Prod.fst hq
          exact promoteChange_trans _ _ _ hstep (ih _ ns hnd2 hin2 h)
    · rw [if_neg hp] at h
      exact ih cur ns hnd2 (fun q hq => hin q (List.mem_cons_of_mem _ hq)) h

/-- C10 counterexample: `refresh_ready_states` is a fourth direct
status assignment bypassing the state machine, and on `gC10c` it moves
the PENDING node `p` to READY — not to SKIPPED — so the claim that the
three listed skip sites are the only direct-assignment mutations and
that they "only ever move a Pending or Ready node to Skipped" is false
of the code. -/
theorem C10_assignment_counterexample :
    refreshReadyStates gC10c = .ok gC10cPrime ∧
    assocFind "p" gC10c.nodes = some { id := "p", node_type := .action, description := "lone step", status := .pending, result := none, parent_id := none } ∧
    assocFind "p" gC10cPrime.nodes = some { id := "p", node_type := .action, description := "lone step", status := .ready, result := none, parent_id := none } ∧
    ¬ NodeStatus.ready = NodeStatus.skipped :=
  ⟨by decide, by decide, by decide, by decide⟩

/-- C10 (amended): the engine mutates status by direct field assignment
at four sites — the cascade skip in `mark_subtree_skipped`, the
conditional-reject skip in `_process_conditions`, the
all-children-skipped branch of `_complete_structural_nodes`, and the
promotion in `refresh_ready_states`.  The three skip sites only move a
Pending or Ready node to Skipped and the promotion site only moves a
Pending node to Ready, each pair being in `VALID_TRANSITIONS`; hence
every status change these operations make (by assignment or through
`transition()`) stays within the table, in the structural-completion
case as a chain of table steps. -/
theorem C10_direct_assignments :
    (∀ g nid g', markSubtreeSkipped g nid = .ok g' →
      ∀ k nd, assocFind k g.nodes = some nd →
        ∃ nd', assocFind k g'.nodes = some nd' ∧
          (nd' = nd ∨ ((nd.status = .pending ∨ nd.status = .ready) ∧
            nd' = { nd with status := .skipped } ∧
            nd'.status ∈ VALID_TRANSITIONS nd.status))) ∧
    (∀ g g', processConditions g = .ok g' →
      ∀ k nd, assocFind k g.nodes = some nd →
        ∃ nd', assocFind k g'.nodes = some nd' ∧
          (nd' = nd ∨ ((nd.status = .pending ∨ nd.status = .ready) ∧
            nd' = { nd with status := .skipped } ∧
            nd'.status ∈ VALID_TRANSITIONS nd.status))) ∧
    (∀ g g', completeStructuralNodes g = .ok g' →
      ∀ k nd, assocFind k g.nodes = some nd →
        ∃ nd', assocFind k g'.nodes = some nd' ∧
          Relation.ReflTransGen (fun a b => b ∈ VALID_TRANSITIONS a)
            nd.status nd'.status) ∧
    (∀ g g', (g.nodes.map Prod.fst).Nodup → refreshReadyStates g = .ok g' →
      ∀ k nd, assocFind k g.nodes = some nd →
        ∃ nd', assocFind k g'.nodes = some nd' ∧
          (nd' = nd ∨ (nd.status = .pending ∧
            nd' = { nd with status := .ready } ∧
            nd'.status ∈ VALID_TRANSITIONS nd.status))) := by
  have hconv : ∀ (m m' : List (String × TaskNode)), skipChange m m' →
      ∀ k nd, assocFind k m = some nd →
        ∃ nd', assocFind k m' = some nd' ∧
          (nd' = nd ∨ ((nd.status = .pending ∨ nd.status = .ready) ∧
            nd' = { nd with status := .skipped } ∧
            nd'.status ∈ VALID_TRANSITIONS nd.status)) := by
    intro m m' hsc k nd hk
    obtain ⟨nd', hfind, hc⟩ := hsc.2 k nd hk
    refine ⟨nd', hfind, ?_⟩
    rcases hc with rfl | ⟨hst, hsk⟩
    · exact Or.inl rfl
    · refine Or.inr ⟨hst, hsk, ?_⟩
      rw [hsk]
      rcases hst with hst | hst <;> simp [hst, VALID_TRANSITIONS]
  refine ⟨?_, ?_, ?_, ?_⟩
  · intro g nid g' h
    exact hconv _ _ (markSubtreeSkipped_skipChange g nid g' h)
  · intro g g' h
    exact hconv _ _ (processConditions_skipChange g g' h)
  · intro g g' h
    exact fun k nd hk =>
      (completeStructuralScan_chainChange _ g g' h).2 k nd hk
  · intro g g' hnd h
    rw [refreshReadyStates] at h
    cases hrs : refreshScan g.edges g.nodes g.nodes with
    | error e =>
      rw [hrs] at h
      cases h
    | ok ns =>
      rw [hrs] at h
      simp only [except_bind_ok] at h
      cases h
      have hpc := refreshScan_promoteChange g.edges g.nodes g.nodes ns hnd
        (fun p hp => assocFind_of_mem_nodup g.nodes hnd p.1 p.2 hp) hrs
      intro k nd hk
      obtain ⟨nd', hf', hc'⟩ := hpc.2 k nd hk
      refine ⟨nd', hf', ?_⟩
      rcases hc' with rfl | ⟨hp0, rfl⟩
      · exact Or.inl rfl
      · exact Or.inr ⟨hp0, rfl, by simp [hp0, VALID_TRANSITIONS]⟩

/-- Witness for `C10_direct_assignments`: on `gC10w` the
conditional-reject pass skips the PENDING target `u`, and on `gC10c`
`refresh_ready_states` promotes the lone PENDING node `p` to READY. -/
theorem C10_direct_assignments_witness :
    processConditions gC10w = .ok gC10wPrime ∧
    (∀ k nd, assocFind k gC10w.nodes = some nd →
      ∃ nd', assocFind k gC10wPrime.nodes = some nd' ∧
        (nd' = nd ∨ ((nd.status = .pending ∨ nd.status = .ready) ∧
          nd' = { nd with status := .skipped } ∧
          nd'.status ∈ VALID_TRANSITIONS nd.status))) ∧
    (gC10c.nodes.map Prod.fst).Nodup ∧
    refreshReadyStates gC10c = .ok gC10cPrime ∧
    (∀ k nd, assocFind k gC10c.nodes = some nd →
      ∃ nd', assocFind k gC10cPrime.nodes = some nd' ∧
        (nd' = nd ∨ (nd.status = .pending ∧
          nd' = { nd with status := .ready } ∧
          nd'.status ∈ VALID_TRANSITIONS nd.status))) := by
  have hev : processConditions gC10w = .ok gC10wPrime := by
    simp +decide [processConditions, processConditionsScan, processCondEdges, processCondEdge,
      getConditionalEdges, evaluateCondition, pyInString, pyLower, containsChars,
      startsWithChars, markSubtreeSkipped, markSkipList, getDownstream, bfsDownstream,
      depChildren, depTargets, assocFind, assocSet, gC10w, gC10wPrime]
  have hrv : refreshReadyStates gC10c = .ok gC10cPrime := by decide
  exact ⟨hev, C10_direct_assignments.2.1 gC10w gC10wPrime hev, by decide, hrv,
    C10_direct_assignments.2.2.2 gC10c gC10cPrime (by decide) hrv⟩

theorem startsWithChars_iff (n h : List Char) :
    startsWithChars n h = true ↔ ∃ s, h = n ++ s := by
  induction n generalizing h with
  | nil => simp [startsWithChars]
  | cons a as ih =>
    cases h with
    | nil => simp [startsWithChars]
    | cons b bs =>
      rw [startsWithChars]
      simp only [Bool.and_eq_true, beq_iff_eq, ih, List.cons_append, List.cons.injEq]
      constructor
      · rintro ⟨rfl, s, rfl⟩
        exact ⟨s, rfl, rfl⟩
      · rintro ⟨s, rfl, hs⟩
        exact ⟨rfl, s, hs⟩

theorem containsChars_iff (n h : List Char) :
    containsChars n h = true ↔ ∃ p s, h = p ++ n ++ s := by
  induction h with
  | nil =>
    rw [containsChars]
    simp only [List.isEmpty_iff]
    constructor
    · rintro rfl
      exact ⟨[], [], rfl⟩
    · rintro ⟨p, s, hps⟩
      rcases List.append_eq_nil.mp hps.symm with ⟨h1, h2⟩
      exact (List.append_eq_nil.mp h1).2
  | cons b bs ih =>
    rw [containsChars]
    simp only [Bool.or_eq_true, startsWithChars_iff, ih]
    constructor
    · rintro (⟨s, hs⟩ | ⟨p, s, hs⟩)
      · exact ⟨[], s, by simpa using hs⟩
      · exact ⟨b :: p, s, by simp [hs]⟩
    · rintro ⟨p, s, hps⟩
      cases p with
      | nil =>
        left
        exact ⟨s, by simpa using hps⟩
      | cons c p' =>
        right
        rw [List.cons_append, List.cons_append] at hps
        obtain ⟨rfl, hbs⟩ := List.cons.inj hps
        exact ⟨p', s, hbs⟩

/-- C4 counterexample: the conditional edge to `u` does not fire and
`v` (downstream of `u`, but FAILED) is left FAILED — the "entire
downstream closure" is not cascade-skipped, only its Pending/Ready
part. -/
theorem C4_conditional_counterexample :
    evaluateCondition edgeC4 gC4c = false ∧
    "v" ∈ getDownstream gC4c "u" ∧
    processCondEdge gC4c edgeC4 = .ok gC4cPrime ∧
    assocFind "v" gC4cPrime.nodes =
      some { id := "v", node_type := .action, description := "writeup",
             status := .failed, result := none, parent_id := none } := by
  refine ⟨by decide, ?_, ?_, by decide⟩
  · simp +decide [getDownstream, bfsDownstream, depChildren, depTargets, gC4c]
  · simp +decide [processCondEdge, evaluateCondition, pyInString, pyLower, containsChars,
      startsWithChars, markSubtreeSkipped, markSkipList, getDownstream, bfsDownstream,
      depChildren, depTargets, assocFind, assocSet, gC4c, gC4cPrime, edgeC4]

/-- C4 (amended): for every Conditional edge whose target is still
Pending, the edge fires iff its condition keyword is a case-insensitive
substring of the source node's stored result (an absent or empty
condition always fires); a firing edge leaves the graph unchanged,
while a non-firing edge sets the target to Skipped and applies the
cascade skip to the target's downstream closure, skipping exactly the
downstream nodes that are still Pending or Ready. -/
theorem C4_conditional_edges (g : TaskDAG) (edge : TaskEdge) (t : TaskNode)
    (htar : assocFind edge.target g.nodes = some t)
    (hpend : t.status = .pending) :
    (edge.condition = none → evaluateCondition edge g = true) ∧
    (∀ c, edge.condition = some c →
      (evaluateCondition edge g = true ↔
        ∃ p s, (pyLower ((assocFind edge.source g.state.node_results).getD "")).data =
          p ++ (pyLower c).data ++ s)) ∧
    (evaluateCondition edge g = true → processCondEdge g edge = .ok g) ∧
    (evaluateCondition edge g = false →
      (∀ d ∈ getDownstream g t.id, (assocFind d g.nodes).isSome) →
      ∃ g', processCondEdge g edge = .ok g' ∧
        assocFind edge.target g'.nodes = some { t with status := .skipped } ∧
        (∀ d ∈ getDownstream g t.id, ∀ dn, assocFind d g.nodes = some dn →
          d ≠ edge.target → (dn.status = .pending ∨ dn.status = .ready) →
          assocFind d g'.nodes = some { dn with status := .skipped }) ∧
        (∀ k nd, assocFind k g.nodes = some nd → k ≠ edge.target →
          k ∉ getDownstream g t.id → assocFind k g'.nodes = some nd) ∧
        g'.edges = g.edges ∧ g'.state = g.state) := by
  have hne : ¬ t.status ≠ .pending := fun hcon => hcon hpend
  refine ⟨?_, ?_, ?_, ?_⟩
  · intro hnone
    simp [evaluateCondition, hnone]
  · intro c hc
    by_cases hce : c = ""
    · subst hce
      simp only [evaluateCondition, hc]
      rw [if_pos trivial]
      exact iff_of_true rfl ⟨[], (pyLower ((assocFind edge.source g.state.node_results).getD "")).data, by simp [pyLower]⟩
    · simp only [evaluateCondition, hc]
      rw [if_neg hce]
      exact containsChars_iff _ _
  · intro hev
    rw [processCondEdge]
    simp only [htar]
    rw [if_neg hne, if_pos hev]
  · intro hev hpres
    have hdse : getDownstream { g with nodes := assocSet edge.target { t with status := .skipped } g.nodes } t.id = getDownstream g t.id := rfl
    have hpres1 : ∀ d ∈ getDownstream { g with nodes := assocSet edge.target { t with status := .skipped } g.nodes } t.id, (assocFind d ({ g with nodes := assocSet edge.target { t with status := .skipped } g.nodes }).nodes).isSome := by
      intro d hd
      rw [hdse] at hd
      exact assocFind_isSome_assocSet _ _ _ _ (hpres d hd)
    obtain ⟨g2, hmark, hedges, hstate, hsome, hnone2⟩ :=
      markSubtreeSkipped_spec _ t.id hpres1
    have hfind1 : assocFind edge.target (assocSet edge.target { t with status := .skipped } g.nodes) = some { t with status := .skipped } := by
      rw [assocFind_assocSet]
      simp
    refine ⟨g2, ?_, ?_, ?_, ?_, hedges, hstate⟩
    · rw [processCondEdge]
      simp only [htar]
      rw [if_neg hne, if_neg (by simp [hev])]
      exact hmark
    · have := hsome edge.target _ hfind1
      rw [this]
      simp
    · intro d hd dn hdn hdt hst
      have hfd : assocFind d (assocSet edge.target { t with status := .skipped } g.nodes) = some dn := by
        have hne2 : ¬ edge.target = d := fun h => hdt h.symm
        rw [assocFind_assocSet, if_neg hne2]
        exact hdn
      have := hsome d dn hfd
      rw [this, hdse, if_pos ⟨hd, hst⟩]
    · intro k nd hknd hkt hkd
      have hfk : assocFind k (assocSet edge.target { t with status := .skipped } g.nodes) = some nd := by
        have hne2 : ¬ edge.target = k := fun h => hkt h.symm
        rw [assocFind_assocSet, if_neg hne2]
        exact hknd
      have := hsome k nd hfk
      rw [this, hdse, if_neg (fun hcon => hkd hcon.1)]

/-- Witness for `C4_conditional_edges`: the §8 example — condition
`"needs deep dive"` against stored result `"no further action
needed"`. -/
theorem C4_conditional_edges_witness :
    assocFind edgeC4.target gC4c.nodes = some nodeUC4 ∧ nodeUC4.status = .pending ∧
    (evaluateCondition edgeC4 gC4c = true ↔
      ∃ p s, (pyLower ((assocFind edgeC4.source gC4c.state.node_results).getD "")).data =
        p ++ (pyLower "needs deep dive").data ++ s) :=
  ⟨by decide, by decide,
   (C4_conditional_edges gC4c edgeC4 nodeUC4 (by decide) (by decide)).2.1
     "needs deep dive" (by decide)⟩

theorem smApply_eq_ok (node : TaskNode) (s : NodeStatus)
    (h : canTransition node s = true) :
    smApply node s = .ok { node with status := s } := by
  rw [smApply, transition, if_neg (by simp [h])]
  rfl

/-- C8 counterexample: a RUNNING SubGoal whose only child ended
SKIPPED is left RUNNING by `_complete_structural_nodes`, not set to
Skipped as the claim states. -/
theorem C8_structural_counterexample :
    (∃ nd, assocFind "sg" gC8.nodes = some nd ∧ nd.node_type = .subgoal ∧
      nd.status = .running) ∧
    (gC8.nodes.map Prod.snd).filter (fun c => c.parent_id = some "sg") ≠ [] ∧
    (∀ c ∈ (gC8.nodes.map Prod.snd).filter (fun c => c.parent_id = some "sg"),
      c.status = .skipped) ∧
    completeStructuralNodes gC8 = .ok gC8 := by
  refine ⟨?_, by decide, by decide, by decide⟩
  exact ⟨{ id := "sg", node_type := .subgoal, description := "group",
           status := .running, result := none, parent_id := none },
         by decide, rfl, rfl⟩

/-- C8 (amended): one pass of structural completion over a Goal/SubGoal
node with at least one direct child, all of whose direct children are
terminal: if at least one child is Completed and the node is Pending,
Ready or Running, it is driven to Completed through the legal chain; a
Failed node is left unchanged.  If every child ended Skipped or
RolledBack, the node is set to Skipped only when it is Pending or
Ready; a Running or Failed node is left unchanged. -/
theorem C8_structural_completion (g : TaskDAG) (nid : String) (node : TaskNode)
    (hfind : assocFind nid g.nodes = some node)
    (hty : ¬ node.node_type = .action)
    (hch : (g.nodes.map Prod.snd).filter (fun c => c.parent_id = some node.id) ≠ [])
    (hterm : ∀ c ∈ (g.nodes.map Prod.snd).filter (fun c => c.parent_id = some node.id),
      isTerminal c.status = true) :
    ((∃ c ∈ (g.nodes.map Prod.snd).filter (fun c => c.parent_id = some node.id),
        c.status = .completed) →
      ((node.status = .pending ∨ node.status = .ready ∨ node.status = .running) →
        completeStructStep g nid =
          .ok { g with nodes := assocSet nid { node with status := .completed } g.nodes }) ∧
      (node.status = .failed → completeStructStep g nid = .ok g)) ∧
    ((∀ c ∈ (g.nodes.map Prod.snd).filter (fun c => c.parent_id = some node.id),
        ¬ c.status = .completed) →
      ((node.status = .pending ∨ node.status = .ready) →
        completeStructStep g nid =
          .ok { g with nodes := assocSet nid { node with status := .skipped } g.nodes }) ∧
      ((node.status = .running ∨ node.status = .failed) →
        completeStructStep g nid = .ok g)) := by
  have hchE : ((g.nodes.map Prod.snd).filter
      (fun c => c.parent_id = some node.id)).isEmpty = false := by
    rw [List.isEmpty_eq_false]
    exact hch
  have hallE : ((g.nodes.map Prod.snd).filter
      (fun c => c.parent_id = some node.id)).all (fun c => isTerminal c.status) = true := by
    rw [List.all_eq_true]
    intro c hc
    simp [hterm c hc]
  constructor
  · intro hex
    have hanyT : ((g.nodes.map Prod.snd).filter
        (fun c => c.parent_id = some node.id)).any
          (fun c => c.status = .completed) = true := by
      rw [List.any_eq_true]
      obtain ⟨c, hc, hcc⟩ := hex
      exact ⟨c, hc, by simp [hcc]⟩
    constructor
    · intro hst
      have htermF : ¬ isTerminal node.status = true := by
        rcases hst with h | h | h <;> simp [isTerminal, h]
      rcases hst with h | h | h <;>
      · simp only [completeStructStep, hfind]
        rw [if_neg hty, if_neg htermF]
        simp +decide [hchE, hallE, hanyT, h, smApply, transition, canTransition,
          VALID_TRANSITIONS, except_bind_ok, except_map_ok]
    · intro h
      have htermF : ¬ isTerminal node.status = true := by simp [isTerminal, h]
      simp only [completeStructStep, hfind]
      rw [if_neg hty, if_neg htermF]
      simp +decide [hchE, hallE, hanyT, h, smApply, transition, canTransition,
        VALID_TRANSITIONS, except_bind_ok, except_map_ok,
        assocSet_self nid node g.nodes hfind]
  · intro hnone
    have hanyF : ((g.nodes.map Prod.snd).filter
        (fun c => c.parent_id = some node.id)).any
          (fun c => c.status = .completed) = false := by
      rw [List.any_eq_false]
      intro c hc
      simp [hnone c hc]
    constructor
    · intro hpr
      have htermF : ¬ isTerminal node.status = true := by
        rcases hpr with h | h <;> simp [isTerminal, h]
      simp only [completeStructStep, hfind]
      rw [if_neg hty, if_neg htermF]
      simp only [hchE, Bool.false_eq_true, if_false, hallE, if_true, hanyF]
      rw [if_pos hpr]
    · intro hrf
      have htermF : ¬ isTerminal node.status = true := by
        rcases hrf with h | h <;> simp [isTerminal, h]
      have hprF : ¬ (node.status = .pending ∨ node.status = .ready) := by
        rcases hrf with h | h <;> simp [h]
      simp only [completeStructStep, hfind]
      rw [if_neg hty, if_neg htermF]
      simp only [hchE, Bool.false_eq_true, if_false, hallE, if_true, hanyF]
      rw [if_neg hprF]

/-- Witness for `C8_structural_completion`: a PENDING SubGoal with one
COMPLETED and one SKIPPED child is driven to COMPLETED. -/
theorem C8_structural_completion_witness :
    (assocFind "sg" gC8w.nodes = some nodeSGC8 ∧
     ¬ nodeSGC8.node_type = .action ∧
     (gC8w.nodes.map Prod.snd).filter (fun c => c.parent_id = some nodeSGC8.id) ≠ [] ∧
     (∀ c ∈ (gC8w.nodes.map Prod.snd).filter (fun c => c.parent_id = some nodeSGC8.id),
       isTerminal c.status = true) ∧
     (∃ c ∈ (gC8w.nodes.map Prod.snd).filter (fun c => c.parent_id = some nodeSGC8.id),
       c.status = .completed) ∧
     (nodeSGC8.status = .pending ∨ nodeSGC8.status = .ready ∨
       nodeSGC8.status = .running)) ∧
    completeStructStep gC8w "sg" =
      .ok { gC8w with nodes := assocSet "sg" { nodeSGC8 with status := .completed } gC8w.nodes } :=
  ⟨⟨by decide, by decide, by decide, by decide, by decide, by decide⟩,
   ((C8_structural_completion gC8w "sg" nodeSGC8 (by decide) (by decide) (by decide)
      (by decide)).1 (by decide)).1 (by decide)⟩

theorem nodesWF_assocSet (m : List (String × TaskNode)) (k : String) (v : TaskNode)
    (hwf : nodesWF m) (hv : v.id = k) : nodesWF (assocSet k v m) := by
  induction m with
  | nil =>
    intro p hp
    rw [assocSet, List.mem_singleton] at hp
    subst hp
    exact hv
  | cons q rest ih =>
    obtain ⟨a, b⟩ := q
    intro p hp
    rw [assocSet] at hp
    by_cases hak : a = k
    · rw [if_pos hak] at hp
      rcases List.mem_cons.mp hp with heq | hrest
      · rw [heq]
        exact hv
      · exact hwf p (List.mem_cons_of_mem _ hrest)
    · rw [if_neg hak] at hp
      rcases List.mem_cons.mp hp with heq | hrest
      · rw [heq]
        exact hwf (a, b) (List.mem_cons_self _ _)
      · exact ih (fun q hq => hwf q (List.mem_cons_of_mem _ hq)) p hrest

theorem runNode_pending (runner : TaskNode → String → StepResult) (g : TaskDAG)
    (node : TaskNode) (h : node.status = .pending) :
    runNode runner g node =
      .ok ({ g with nodes := assocSet node.id { node with status := .running } g.nodes },
        runner { node with status := .running }
          (getNodeContext g.state node.id (getDependencyIds g.edges node.id))) := by
  simp +decide [runNode, h, smApply, transition, canTransition, VALID_TRANSITIONS,
    except_bind_ok, except_map_ok]

theorem rollbackFold_spec (runner : TaskNode → String → StepResult)
    (targets : List String) (g : TaskDAG) (hwf : nodesWF g.nodes) :
    ∃ gf, rollbackFold runner g targets = .ok gf ∧
      gf.edges = g.edges ∧
      gf.state.task = g.state.task ∧
      gf.state.context = g.state.context ∧
      nodesWF gf.nodes ∧
      (∀ k, assocFind k g.nodes = none → assocFind k gf.nodes = none) ∧
      (∀ k nd, assocFind k g.nodes = some nd →
        (k ∉ targets ∨ ¬ nd.status = .pending) → assocFind k gf.nodes = some nd) ∧
      (∀ k, (k ∉ targets ∨
          (∃ nd, assocFind k g.nodes = some nd ∧ ¬ nd.status = .pending)) →
        assocFind k gf.state.node_results = assocFind k g.state.node_results) ∧
      (∀ rb ∈ targets, ∀ rbn, assocFind rb g.nodes = some rbn → rbn.status = .pending →
        ∃ res : StepResult,
          assocFind rb gf.state.node_results = some res.output ∧
          ∃ rbn', assocFind rb gf.nodes = some rbn' ∧
            rbn'.status = (if res.success then NodeStatus.completed
              else NodeStatus.failed)) := by
  induction targets generalizing g with
  | nil =>
    exact ⟨g, by rw [rollbackFold], rfl, rfl, rfl, hwf, fun _ h => h,
      fun k nd h _ => h, fun _ _ => rfl, by simp⟩
  | cons rb rest ih =>
    cases hf : assocFind rb g.nodes with
    | none =>
      obtain ⟨gf, hrun, he, ht, hc, hwf', hnone, hpres, hres, hrb⟩ := ih g hwf
      refine ⟨gf, ?_, he, ht, hc, hwf', hnone, ?_, ?_, ?_⟩
      · rw [rollbackFold]
        simp only [hf]
        exact hrun
      · intro k nd hknd hdisj
        refine hpres k nd hknd ?_
        rcases hdisj with hk | hs
        · exact Or.inl (fun hkr => hk (List.mem_cons_of_mem _ hkr))
        · exact Or.inr hs
      · intro k hdisj
        refine hres k ?_
        rcases hdisj with hk | hs
        · exact Or.inl (fun hkr => hk (List.mem_cons_of_mem _ hkr))
        · exact Or.inr hs
      · intro rb' hrb' rbn hfind hpend
        rcases List.mem_cons.mp hrb' with heq | hrest
        · subst heq
          rw [hf] at hfind
          cases hfind
        · exact hrb rb' hrest rbn hfind hpend
    | some rb_node =>
      by_cases hp : rb_node.status = .pending
      · have hid : rb_node.id = rb := hwf (rb, rb_node) (assocFind_mem _ _ _ hf)
        have hrn := runNode_pending runner g rb_node hp
        have hfs : ∀ b : Bool,
            ¬ (if b then NodeStatus.completed else NodeStatus.failed) =
              NodeStatus.pending := by
          intro b
          cases b <;> simp
        have hsm : ∀ res : StepResult,
            smApply { rb_node with status := NodeStatus.running }
              (if res.success then NodeStatus.completed else NodeStatus.failed) =
            .ok { rb_node with status :=
              (if res.success then NodeStatus.completed else NodeStatus.failed) } := by
          intro res
          cases hrs : res.success <;>
            simp [smApply, transition, canTransition, VALID_TRANSITIONS, hrs,
              except_map_ok]
        have hstep : ∀ res : StepResult,
            runNode runner g rb_node = .ok ({ g with nodes := assocSet rb_node.id { rb_node with status := NodeStatus.running } g.nodes }, res) →
            rollbackFold runner g (rb :: rest) =
            rollbackFold runner { nodes := assocSet rb { rb_node with status := (if res.success then NodeStatus.completed else NodeStatus.failed) } (assocSet rb { rb_node with status := NodeStatus.running } g.nodes), edges := g.edges, state := { task := g.state.task, context := g.state.context, node_results := assocSet rb res.output g.state.node_results } } rest := by
          intro res hrc
          rw [rollbackFold]
          simp only [hf, if_pos hp, hrc, hid, mergeResult]
          have hfind2 : assocFind rb (assocSet rb { id := rb, node_type := rb_node.node_type, description := rb_node.description, status := NodeStatus.running, result := rb_node.result, parent_id := rb_node.parent_id } g.nodes) = some { id := rb, node_type := rb_node.node_type, description := rb_node.description, status := NodeStatus.running, result := rb_node.result, parent_id := rb_node.parent_id } := by
            rw [assocFind_assocSet, if_pos rfl]
          have hsm2 : smApply { id := rb, node_type := rb_node.node_type, description := rb_node.description, status := NodeStatus.running, result := rb_node.result, parent_id := rb_node.parent_id } (if res.success = true then NodeStatus.completed else NodeStatus.failed) = Except.ok { id := rb, node_type := rb_node.node_type, description := rb_node.description, status := (if res.success = true then NodeStatus.completed else NodeStatus.failed), result := rb_node.result, parent_id := rb_node.parent_id } := by
            cases hrs : res.success <;>
              simp [smApply, transition, canTransition, VALID_TRANSITIONS, hrs,
                except_map_ok]
          simp only [hfind2, hsm2]
        have hkey := hstep _ hrn
        have hv2 : assocFind rb (assocSet rb { rb_node with status := (if (runner { rb_node with status := NodeStatus.running } (getNodeContext g.state rb_node.id (getDependencyIds g.edges rb_node.id))).success then NodeStatus.completed else NodeStatus.failed) } (assocSet rb { rb_node with status := NodeStatus.running } g.nodes)) = some { rb_node with status := (if (runner { rb_node with status := NodeStatus.running } (getNodeContext g.state rb_node.id (getDependencyIds g.edges rb_node.id))).success then NodeStatus.completed else NodeStatus.failed) } := by
          simp [assocFind_assocSet]
        obtain ⟨gf, hrun, he, ht, hc, hwf', hnone, hpres, hresp, hrb⟩ :=
          ih { nodes := assocSet rb { rb_node with status := (if (runner { rb_node with status := NodeStatus.running } (getNodeContext g.state rb_node.id (getDependencyIds g.edges rb_node.id))).success then NodeStatus.completed else NodeStatus.failed) } (assocSet rb { rb_node with status := NodeStatus.running } g.nodes), edges := g.edges, state := { task := g.state.task, context := g.state.context, node_results := assocSet rb (runner { rb_node with status := NodeStatus.running } (getNodeContext g.state rb_node.id (getDependencyIds g.edges rb_node.id))).output g.state.node_results } }
            (by
              apply nodesWF_assocSet
              · apply nodesWF_assocSet
                · exact hwf
                · exact hid
              · exact hid)
        refine ⟨gf, by rw [hkey]; exact hrun, he, ht, hc, hwf', ?_, ?_, ?_, ?_⟩
        · intro k hk
          have hne : rb ≠ k := fun heq => by rw [heq, hk] at hf; cases hf
          refine hnone k ?_
          simp only [assocFind_assocSet, if_neg hne]
          exact hk
        · intro k nd hknd hdisj
          by_cases hkrb : k = rb
          · subst hkrb
            rw [hf] at hknd
            cases hknd
            rcases hdisj with hk | hs
            · exact absurd (List.mem_cons_self _ _) hk
            · exact absurd hp hs
          · have hne : rb ≠ k := fun heq => hkrb heq.symm
            refine hpres k nd ?_ ?_
            · simp only [assocFind_assocSet, if_neg hne]
              exact hknd
            · rcases hdisj with hk | hs
              · exact Or.inl (fun hkr => hk (List.mem_cons_of_mem _ hkr))
              · exact Or.inr hs
        · intro k hdisj
          by_cases hkrb : k = rb
          · subst hkrb
            rcases hdisj with hk | ⟨nd, hnd, hs⟩
            · exact absurd (List.mem_cons_self _ _) hk
            · rw [hf] at hnd
              cases hnd
              exact absurd hp hs
          · have hne : rb ≠ k := fun heq => hkrb heq.symm
            have := hresp k (by
              rcases hdisj with hk | ⟨nd, hnd, hs⟩
              · exact Or.inl (fun hkr => hk (List.mem_cons_of_mem _ hkr))
              · refine Or.inr ⟨nd, ?_, hs⟩
                simp only [assocFind_assocSet, if_neg hne]
                exact hnd)
            rw [this]
            simp only [assocFind_assocSet, if_neg hne]
        · intro rb' hrb' rbn hfind hpend
          rcases List.mem_cons.mp hrb' with heq | hrest
          · subst heq
            rw [hf] at hfind
            cases hfind
            refine ⟨runner { rb_node with status := NodeStatus.running }
              (getNodeContext g.state rb_node.id (getDependencyIds g.edges rb_node.id)), ?_, ?_⟩
            · have := hresp rb' (Or.inr ⟨_, hv2, hfs _⟩)
              rw [this]
              simp [assocFind_assocSet]
            · exact ⟨_, hpres rb' _ hv2 (Or.inr (hfs _)), rfl⟩
          · by_cases hkrb : rb' = rb
            · subst hkrb
              rw [hf] at hfind
              cases hfind
              refine ⟨runner { rb_node with status := NodeStatus.running }
                (getNodeContext g.state rb_node.id (getDependencyIds g.edges rb_node.id)),
                ?_, ?_⟩
              · have := hresp rb' (Or.inr ⟨_, hv2, hfs _⟩)
                rw [this]
                simp [assocFind_assocSet]
              · exact ⟨_, hpres rb' _ hv2 (Or.inr (hfs _)), rfl⟩
            · have hne : rb ≠ rb' := fun heq => hkrb heq.symm
              refine hrb rb' hrest rbn ?_ hpend
              simp only [assocFind_assocSet, if_neg hne]
              exact hfind
      · obtain ⟨gf, hrun, he, ht, hc, hwf', hnone, hpres, hresp, hrb⟩ := ih g hwf
        refine ⟨gf, ?_, he, ht, hc, hwf', hnone, ?_, ?_, ?_⟩
        · rw [rollbackFold]
          simp only [hf, if_neg hp]
          exact hrun
        · intro k nd hknd hdisj
          refine hpres k nd hknd ?_
          rcases hdisj with hk | hs
          · exact Or.inl (fun hkr => hk (List.mem_cons_of_mem _ hkr))
          · exact Or.inr hs
        · intro k hdisj
          refine hresp k ?_
          rcases hdisj with hk | hs
          · exact Or.inl (fun hkr => hk (List.mem_cons_of_mem _ hkr))
          · exact Or.inr hs
        · intro rb' hrb' rbn hfind hpend
          rcases List.mem_cons.mp hrb' with heq | hrest
          · subst heq
            rw [hf] at hfind
            cases hfind
            exact absurd hpend hp
          · exact hrb rb' hrest rbn hfind hpend

/-- C3: `_handle_failure` on a FAILED node: when ROLLBACK edges exist,
every rollback target currently PENDING is run through the single-node
execution path, its result is merged into the shared store and its final
status becomes COMPLETED or FAILED according to the runner's success
flag, and the failed node transitions FAILED→ROLLED_BACK; with no
ROLLBACK edges it transitions FAILED→SKIPPED; in both cases
`mark_subtree_skipped` then cascade-skips the downstream dependents that
are still PENDING or READY. -/
theorem C3_handle_failure (runner : TaskNode → String → StepResult)
    (g : TaskDAG) (nid : String) (node : TaskNode)
    (hwf : nodesWF g.nodes)
    (hfind : assocFind nid g.nodes = some node)
    (hfail : node.status = NodeStatus.failed)
    (hdown : ∀ d ∈ getDownstream g nid, (assocFind d g.nodes).isSome) :
    ∃ g', handleFailure runner g nid = .ok g' ∧
      (getRollbackTargets g.edges nid = [] →
        assocFind nid g'.nodes = some { node with status := NodeStatus.skipped }) ∧
      (¬ getRollbackTargets g.edges nid = [] →
        assocFind nid g'.nodes = some { node with status := NodeStatus.rolledBack } ∧
        ∀ rb ∈ getRollbackTargets g.edges nid, ∀ rbn,
          assocFind rb g.nodes = some rbn → rbn.status = NodeStatus.pending →
          ∃ res : StepResult,
            assocFind rb g'.state.node_results = some res.output ∧
            ∃ rbn', assocFind rb g'.nodes = some rbn' ∧
              rbn'.status = (if res.success then NodeStatus.completed
                else NodeStatus.failed)) ∧
      (∀ d ∈ getDownstream g nid, d ∉ getRollbackTargets g.edges nid →
        ∀ nd, assocFind d g.nodes = some nd →
        (nd.status = NodeStatus.pending ∨ nd.status = NodeStatus.ready) →
        assocFind d g'.nodes = some { nd with status := NodeStatus.skipped }) := by
  by_cases hT : getRollbackTargets g.edges nid = []
  · have hTe : (getRollbackTargets g.edges nid).isEmpty = true := by
      rw [hT]
      rfl
    have hsm : smApply node NodeStatus.skipped =
        .ok { node with status := NodeStatus.skipped } := by
      simp [smApply, transition, canTransition, VALID_TRANSITIONS, hfail, except_map_ok]
    have hdown2 : ∀ d ∈ getDownstream { g with nodes := assocSet nid { node with status := NodeStatus.skipped } g.nodes } nid, (assocFind d ({ g with nodes := assocSet nid { node with status := NodeStatus.skipped } g.nodes } : TaskDAG).nodes).isSome := by
      intro d hd
      exact assocFind_isSome_assocSet nid d _ g.nodes (hdown d hd)
    obtain ⟨g', hms, he', hst', hsome, hnone⟩ :=
      markSubtreeSkipped_spec { g with nodes := assocSet nid { node with status := NodeStatus.skipped } g.nodes } nid hdown2
    refine ⟨g', ?_, ?_, fun hne => absurd hT hne, ?_⟩
    · rw [handleFailure]
      simp only [hTe, eq_self_iff_true, if_true, hfind, hsm, except_bind_ok]
      exact hms
    · intro _
      have h2f : assocFind nid (assocSet nid { node with status := NodeStatus.skipped } g.nodes) = some { node with status := NodeStatus.skipped } := by
        rw [assocFind_assocSet, if_pos rfl]
      rw [hsome nid _ h2f]
      split
      · rfl
      · rfl
    · intro d hd hdnt nd hdnd hpr
      have hne : ¬ nid = d := by
        intro he
        rw [← he, hfind] at hdnd
        injection hdnd with hh
        rw [← hh, hfail] at hpr
        rcases hpr with h1 | h1 <;> cases h1
      have h2f : assocFind d (assocSet nid { node with status := NodeStatus.skipped } g.nodes) = some nd := by
        rw [assocFind_assocSet, if_neg hne]
        exact hdnd
      rw [hsome d _ h2f, if_pos ⟨hd, hpr⟩]
  · have hTe : (getRollbackTargets g.edges nid).isEmpty = false := by
      cases hE : (getRollbackTargets g.edges nid).isEmpty
      · rfl
      · exact absurd (List.isEmpty_iff.mp hE) hT
    obtain ⟨g1, hfold, he1, ht1, hc1, hwf1, hnone1, hpres1, hres1, hrbE⟩ :=
      rollbackFold_spec runner (getRollbackTargets g.edges nid) g hwf
    have hfind1 : assocFind nid g1.nodes = some node :=
      hpres1 nid node hfind (Or.inr (by rw [hfail]; decide))
    have hsm : smApply node NodeStatus.rolledBack =
        .ok { node with status := NodeStatus.rolledBack } := by
      simp [smApply, transition, canTransition, VALID_TRANSITIONS, hfail, except_map_ok]
    have hdg : getDownstream { g1 with nodes := assocSet nid { node with status := NodeStatus.rolledBack } g1.nodes } nid = getDownstream g nid := by
      show bfsDownstream g1.edges [] (depChildren g1.edges nid) =
        bfsDownstream g.edges [] (depChildren g.edges nid)
      rw [he1]
    have hdown2 : ∀ d ∈ getDownstream { g1 with nodes := assocSet nid { node with status := NodeStatus.rolledBack } g1.nodes } nid, (assocFind d ({ g1 with nodes := assocSet nid { node with status := NodeStatus.rolledBack } g1.nodes } : TaskDAG).nodes).isSome := by
      intro d hd
      rw [hdg] at hd
      have hds := hdown d hd
      cases ho : assocFind d g.nodes with
      | none => rw [ho] at hds; simp at hds
      | some nd =>
        by_cases hcase : d ∈ getRollbackTargets g.edges nid ∧ nd.status = NodeStatus.pending
        · obtain ⟨res, hro, rbn', hrb1, hrbst⟩ := hrbE d hcase.1 nd ho hcase.2
          show (assocFind d (assocSet nid { node with status := NodeStatus.rolledBack } g1.nodes)).isSome
          rw [assocFind_assocSet]
          by_cases hnd : nid = d
          · simp [hnd]
          · simp [hnd, hrb1]
        · have hd1 := hpres1 d nd ho (not_and_or.mp hcase)
          show (assocFind d (assocSet nid { node with status := NodeStatus.rolledBack } g1.nodes)).isSome
          rw [assocFind_assocSet]
          by_cases hnd : nid = d
          · simp [hnd]
          · simp [hnd, hd1]
    obtain ⟨g', hms, he', hst', hsome, hnone⟩ :=
      markSubtreeSkipped_spec { g1 with nodes := assocSet nid { node with status := NodeStatus.rolledBack } g1.nodes } nid hdown2
    refine ⟨g', ?_, fun hh => absurd hh hT, ?_, ?_⟩
    · rw [handleFailure]
      simp only [hTe, Bool.false_eq_true, if_false, hfold, except_bind_ok, hfind1, hsm]
      exact hms
    · intro _
      constructor
      · have h2f : assocFind nid (assocSet nid { node with status := NodeStatus.rolledBack } g1.nodes) = some { node with status := NodeStatus.rolledBack } := by
          rw [assocFind_assocSet, if_pos rfl]
        have hneg : ∀ c : Prop, ¬(c ∧ (({ node with status := NodeStatus.rolledBack } : TaskNode).status = NodeStatus.pending ∨ ({ node with status := NodeStatus.rolledBack } : TaskNode).status = NodeStatus.ready)) := by
          intro c hc
          rcases hc.2 with h1 | h1 <;> simp at h1
        rw [hsome nid _ h2f, if_neg (hneg _)]
      · intro rb hrbT rbn hrbfind hrbpend
        have hne : ¬ nid = rb := by
          intro he
          rw [← he, hfind] at hrbfind
          injection hrbfind with hh
          rw [← hh, hfail] at hrbpend
          cases hrbpend
        obtain ⟨res, hro, rbn', hrb1, hrbst⟩ := hrbE rb hrbT rbn hrbfind hrbpend
        refine ⟨res, ?_, ?_⟩
        · rw [hst']
          exact hro
        · have h2f : assocFind rb (assocSet nid { node with status := NodeStatus.rolledBack } g1.nodes) = some rbn' := by
            rw [assocFind_assocSet, if_neg hne]
            exact hrb1
          have hnotpr : ¬(rbn'.status = NodeStatus.pending ∨ rbn'.status = NodeStatus.ready) := by
            rw [hrbst]
            cases hb : res.success <;> simp [hb]
          refine ⟨rbn', ?_, hrbst⟩
          rw [hsome rb _ h2f, if_neg (fun hc => hnotpr hc.2)]
    · intro d hd hdnt nd hdnd hpr
      have hne : ¬ nid = d := by
        intro he
        rw [← he, hfind] at hdnd
        injection hdnd with hh
        rw [← hh, hfail] at hpr
        rcases hpr with h1 | h1 <;> cases h1
      have hd1 : assocFind d g1.nodes = some nd := hpres1 d nd hdnd (Or.inl hdnt)
      have h2f : assocFind d (assocSet nid { node with status := NodeStatus.rolledBack } g1.nodes) = some nd := by
        rw [assocFind_assocSet, if_neg hne]
        exact hd1
      rw [hsome d _ h2f, if_pos ⟨by rw [hdg]; exact hd, hpr⟩]

/-- Witness for C3 at the concrete graph `gC3w`: node `a` is FAILED,
has a PENDING rollback target `rb` and a PENDING downstream dependent
`w`; `handleFailure` rolls `rb` back, marks `a` ROLLED_BACK and
cascade-skips `w`. -/
theorem C3_handle_failure_witness :
    nodesWF gC3w.nodes ∧
    assocFind "a" gC3w.nodes = some nodeAC3 ∧
    nodeAC3.status = NodeStatus.failed ∧
    (∀ d ∈ getDownstream gC3w "a", (assocFind d gC3w.nodes).isSome) ∧
    (∃ g', handleFailure runnerC3 gC3w "a" = .ok g' ∧
      (getRollbackTargets gC3w.edges "a" = [] →
        assocFind "a" g'.nodes = some { nodeAC3 with status := NodeStatus.skipped }) ∧
      (¬ getRollbackTargets gC3w.edges "a" = [] →
        assocFind "a" g'.nodes = some { nodeAC3 with status := NodeStatus.rolledBack } ∧
        ∀ rb ∈ getRollbackTargets gC3w.edges "a", ∀ rbn,
          assocFind rb gC3w.nodes = some rbn → rbn.status = NodeStatus.pending →
          ∃ res : StepResult,
            assocFind rb g'.state.node_results = some res.output ∧
            ∃ rbn', assocFind rb g'.nodes = some rbn' ∧
              rbn'.status = (if res.success then NodeStatus.completed
                else NodeStatus.failed)) ∧
      (∀ d ∈ getDownstream gC3w "a", d ∉ getRollbackTargets gC3w.edges "a" →
        ∀ nd, assocFind d gC3w.nodes = some nd →
        (nd.status = NodeStatus.pending ∨ nd.status = NodeStatus.ready) →
        assocFind d g'.nodes = some { nd with status := NodeStatus.skipped })) :=
  ⟨by simp +decide [nodesWF, gC3w], by decide, by decide,
   by simp +decide [getDownstream, bfsDownstream, depChildren, depTargets, gC3w, assocFind],
   C3_handle_failure runnerC3 gC3w "a" nodeAC3 (by simp +decide [nodesWF, gC3w])
     (by decide) (by decide)
     (by simp +decide [getDownstream, bfsDownstream, depChildren, depTargets, gC3w, assocFind])⟩
